import Mathlib

/-!
# Verification of the idle-game progression model

Shallow embedding of the `unr/namless-idle-tui` repository:

* `GameNumber` / `Dec` model `idle_game/models.py`'s `GameNumber` wrapper around
  Python `Decimal`.  A Python `Decimal` is a coefficient/exponent pair; we model
  the finite decimals as `⟨c : ℤ, e : ℤ⟩` denoting `c * 10 ^ e`.  Arithmetic
  (`Dec.add`, `Dec.multiply`) composes the exact operation (`addRaw`, `mulRaw`)
  with `decFix`, the `Decimal._fix` rounding step of the source's
  50-significant-digit context (`getcontext().prec = 50`, models.py line 6):
  a result whose coefficient exceeds 50 digits is rounded half-even.  Python's
  signed zero is conflated with `0` (the game never produces a negative zero),
  and the `__add__` big-exponent-gap shortcut (`_normalize`'s sticky digit) is
  not modelled: it fires only when the aligned sum has more than 51 digits,
  outside every precision hypothesis used below.
* `GameState` models `idle_game/models.py`'s `GameState` dataclass; the mutating
  methods `update` and `click` are modelled as functions returning the new state
  together with the Python return value.
* The two float64 steps are not idealised away but abstracted behind
  interfaces carrying only IEEE-754 guarantees, so that theorems quantified
  over every conforming instance hold of the program whatever the actual float
  values are: `FloatModel` covers `float(self.value)` (with `none` for
  overflow to `inf`) and `num / 1000.0` inside `GameNumber.format`, with
  exactness on representable values (`FloatRep`) and relative error at most
  `epsF = 2⁻⁵²` on operands `≥ 1`; `TimeModel` covers
  `Decimal(str((current_time - last_update).total_seconds()))`, exact with
  bounded coefficient and exponent for elapsed times below `10¹⁵` μs (15
  significant digits survive the float64 round trip) and sign-preserving
  always.  `exactFloat` / `exactTime` are the distinguished error-free
  instances used to witness such theorems.
* `DateTime` models `datetime.datetime`; `DateTime.toMicroseconds` is CPython's
  `toordinal`-based subtraction timeline, so differences of it are the exact
  `(a - b).total_seconds() * 10⁶`.
* Serialization mirrors `idle_game/database.py`: `Dec.toChars` is
  `str(Decimal)` (the General Decimal Arithmetic to-scientific-string
  algorithm implemented by `_pydecimal.__str__`), `parseDecChars` is the
  `Decimal(string)` constructor restricted to the finite-number grammar
  (whitespace, underscores and the special values NaN/Infinity, which no
  rendering of a finite decimal ever produces, are omitted);
  `DateTime.isoChars` is `datetime.isoformat()` and `parseIsoChars` is
  `datetime.fromisoformat` on the canonical renderings, including the
  constructor's field-range validation.
* `reset_game` models `reset_game.py` as a function of the observable inputs
  (store existence, typed response, whether the deletion raises).
-/

namespace IdleGame

/-! ## Definitions: decimal digit strings -/

/-- Least-significant-first decimal digits of `n`, computed structurally on a
fuel bound (`fuel ≥ n` suffices); agrees with `Nat.digits 10`. -/
def natDigitsRev : ℕ → ℕ → List ℕ
  | 0, _ => []
  | fuel + 1, n => if n = 0 then [] else n % 10 :: natDigitsRev fuel (n / 10)

/-- Most-significant-digit-first decimal digit characters of a natural
number; `0` renders as `"0"`. -/
def natChars (n : ℕ) : List Char :=
  if n = 0 then ['0'] else ((natDigitsRev n n).map Nat.digitChar).reverse

/-- Read a most-significant-first digit-character list back as a natural
number (the numeric part of Python's `int(...)` on a digit string). -/
def charsToNat (l : List Char) : ℕ :=
  l.foldl (fun a c => 10 * a + (c.toNat - 48)) 0

/-- Signed decimal digit characters of an integer. -/
def intChars (k : ℤ) : List Char :=
  (if k < 0 then ['-'] else []) ++ natChars k.natAbs

/-- Decimal digit characters of `n` left-padded with `'0'` to width `w`. -/
def padChars (w n : ℕ) : List Char :=
  List.replicate (w - (natChars n).length) '0' ++ natChars n

/-! ## Definitions: the decimal model -/

/-- A finite Python `Decimal`: coefficient `c` and exponent `e`, denoting
`c * 10 ^ e`.  Python keeps the coefficient as a digit string; the integer
`c` captures exactly the canonical coefficients (no leading zeros, zero is
the single digit `0`), with the sign folded in. -/
structure Dec where
  c : ℤ
  e : ℤ
  deriving DecidableEq

/-- Numeric value of a decimal. -/
def Dec.toQ (d : Dec) : ℚ := (d.c : ℚ) * (10 : ℚ) ^ d.e

/-- The exact, pre-rounding sum `Decimal.__add__` computes, at the ideal
exponent `min e₁ e₂`: align to the smaller exponent. -/
def Dec.addRaw (a b : Dec) : Dec :=
  let m := min a.e b.e
  ⟨a.c * 10 ^ (a.e - m).toNat + b.c * 10 ^ (b.e - m).toNat, m⟩

/-- The exact, pre-rounding product `Decimal.__mul__` computes. -/
def Dec.mulRaw (a b : Dec) : Dec := ⟨a.c * b.c, a.e + b.e⟩

/-- Round the natural `n` to the nearest multiple of `D` (returning the
multiplier), ties to even — the `ROUND_HALF_EVEN` digit-dropping step of
`Decimal._fix` applied to the coefficient magnitude. -/
def roundHalfEvenNat (n D : ℕ) : ℕ :=
  if 2 * (n % D) < D then n / D
  else if D < 2 * (n % D) then n / D + 1
  else if n / D % 2 = 0 then n / D else n / D + 1

/-- `Decimal._fix` under the source's `getcontext().prec = 50`
(models.py line 6): a result whose coefficient exceeds 50 digits is rounded
half-even to 50 significant digits, the exponent absorbing the dropped
digits (with the usual carry renormalisation when rounding overflows to
`10⁵⁰`).  The context's exponent limits `Emin`/`Emax` = ∓999999, which no
value within the other hypotheses of this file can reach, are not
modelled. -/
def decFix (d : Dec) : Dec :=
  if d.c.natAbs < 10 ^ 50 then d
  else if roundHalfEvenNat d.c.natAbs
      (10 ^ ((natChars d.c.natAbs).length - 50)) = 10 ^ 50 then
    ⟨(if d.c < 0 then -1 else 1) * ((10 : ℕ) ^ 49 : ℕ),
      d.e + ((natChars d.c.natAbs).length - 50) + 1⟩
  else
    ⟨(if d.c < 0 then -1 else 1)
        * (roundHalfEvenNat d.c.natAbs
            (10 ^ ((natChars d.c.natAbs).length - 50)) : ℤ),
      d.e + ((natChars d.c.natAbs).length - 50)⟩

/-- `Decimal.__add__` under the 50-digit context: exact sum, then `_fix`. -/
def Dec.add (a b : Dec) : Dec := decFix (a.addRaw b)

/-- `Decimal.__mul__` under the 50-digit context: exact product, then
`_fix`. -/
def Dec.multiply (a b : Dec) : Dec := decFix (a.mulRaw b)

/-! ## Definitions: rendering helpers shared by `format` and the serializer -/

/-- Round a rational to the nearest integer, ties to even — the rounding
Python's `Decimal.__format__` and float `%f` formatting use. -/
def roundHalfEven (q : ℚ) : ℤ :=
  let f := ⌊q⌋
  if q - f < 1 / 2 then f
  else if 1 / 2 < q - f then f + 1
  else if f % 2 = 0 then f else f + 1

/-- Python `f"{num:.2f}"` for the non-negative floats reached by
`GameNumber.format` (the loop below only ever feeds it values `≥ 1`),
modelled on the exact rational value: round to two fractional digits,
ties to even. -/
def fixedTwo (q : ℚ) : List Char :=
  let k := (roundHalfEven (q * 100)).toNat
  natChars (k / 100) ++ '.' :: padChars 2 (k % 100)

/-! ## Definitions: GameNumber (`idle_game/models.py`) -/

/-- Class `GameNumber`: wrapper for `Decimal` to handle idle game numbers. -/
structure GameNumber where
  value : Dec
  deriving DecidableEq

def GameNumber.add (g : GameNumber) (amount : Dec) : GameNumber :=
  ⟨g.value.add amount⟩

def GameNumber.multiply (g : GameNumber) (factor : Dec) : GameNumber :=
  ⟨g.value.multiply factor⟩

/-- The suffix tiers of `GameNumber.format`. -/
def suffixes : List String :=
  ["", "K", "M", "B", "T", "Qa", "Qi", "Sx", "Sp", "Oc", "No", "Dc"]

/-- Bound on the relative rounding error of float64 (binary64) correctly
rounded operations: half an ulp is below `2⁻⁵²` relatively. -/
def epsF : ℚ := 1 / 2 ^ 52

/-- The finite float64 values: `m · 2ᵏ` with a 53-bit magnitude. -/
def FloatRep (x : ℚ) : Prop :=
  ∃ m k : ℤ, x = (m : ℚ) * 2 ^ k ∧ m.natAbs ≤ 2 ^ 53 ∧ -1074 ≤ k ∧ k ≤ 971

/-- Abstract interface to the two float64 steps of `GameNumber.format`:
`num = float(self.value)` (`conv`, with `none` modelling overflow to `inf`)
and `num / 1000.0` (`div1000`).  The fields are the standard guarantees of
IEEE-754 correctly rounded conversion and division: exactness on
representable values and relative error at most `epsF` on the normal range
(stated for operands `≥ 1`, which covers every value the claims touch).
A theorem quantified over every `FloatModel` therefore holds of the program
whatever float64 values actually arise; `exactFloat` below is the
distinguished error-free instance used to witness such theorems. -/
structure FloatModel where
  conv : Dec → Option ℚ
  div1000 : ℚ → ℚ
  conv_exact : ∀ d : Dec, FloatRep d.toQ → conv d = some d.toQ
  conv_lower : ∀ d q, conv d = some q → 1 ≤ d.toQ → (1 - epsF) * d.toQ ≤ q
  conv_upper : ∀ d q, conv d = some q → 1 ≤ d.toQ → q ≤ (1 + epsF) * d.toQ
  div_exact : ∀ x : ℚ, FloatRep (x / 1000) → div1000 x = x / 1000
  div_lower : ∀ x : ℚ, 1 ≤ x / 1000 → (1 - epsF) * (x / 1000) ≤ div1000 x
  div_upper : ∀ x : ℚ, 1 ≤ x / 1000 → div1000 x ≤ (1 + epsF) * (x / 1000)

/-- The error-free `FloatModel`: one admissible float64 behavior on the
values it is ever applied to, used to instantiate universally quantified
theorems. -/
def exactFloat : FloatModel where
  conv d := some d.toQ
  div1000 x := x / 1000
  conv_exact _ _ := rfl
  conv_lower d q h h1 := by
    rw [Option.some_inj] at h
    subst h
    nlinarith [show (0 : ℚ) < epsF from by norm_num [epsF]]
  conv_upper d q h h1 := by
    rw [Option.some_inj] at h
    subst h
    nlinarith [show (0 : ℚ) < epsF from by norm_num [epsF]]
  div_exact _ _ := rfl
  div_lower x h1 := by
    nlinarith [show (0 : ℚ) < epsF from by norm_num [epsF]]
  div_upper x h1 := by
    nlinarith [show (0 : ℚ) < epsF from by norm_num [epsF]]

/-- Body of the `while abs(num) >= 1000 and magnitude < len(suffixes) - 1`
loop of `GameNumber.format`, structurally recursive on the remaining
iteration budget `fuel = 11 - magnitude` (so `fuel = 0` is exactly the
failure of the guard `magnitude < len(suffixes) - 1`).  `none` is `inf`,
whose absolute value always passes the `>= 1000` guard and which stays
`inf` under division. -/
def fmtLoopGo (F : FloatModel) : ℕ → Option ℚ → ℕ → Option ℚ × ℕ
  | 0, num, magnitude => (num, magnitude)
  | fuel + 1, none, magnitude => fmtLoopGo F fuel none (magnitude + 1)
  | fuel + 1, some q, magnitude =>
    if 1000 ≤ |q| then fmtLoopGo F fuel (some (F.div1000 q)) (magnitude + 1)
    else (some q, magnitude)

/-- The `while` loop of `GameNumber.format`, returning the final
`(num, magnitude)`. -/
def fmtLoop (F : FloatModel) (num : Option ℚ) (magnitude : ℕ) : Option ℚ × ℕ :=
  fmtLoopGo F (11 - magnitude) num magnitude

/-- Python `f"{num:.2f}"` on the loop's final value: `"inf"` for an infinite
float, otherwise the two-decimal fixed-point rendering of the float's exact
rational value. -/
def fixedTwoOpt : Option ℚ → List Char
  | none => 'i' :: 'n' :: 'f' :: []
  | some q => fixedTwo q

/-- Method `GameNumber.format`: format for display with suffixes.  The
`value < 1000` branch is pure `Decimal` fixed-point formatting
(round-half-even to integer, float-free); the suffixed branch runs the
division loop on `float(self.value)` under the given float64 model. -/
def GameNumber.format (F : FloatModel) (g : GameNumber) : String :=
  if g.value.toQ < 1000 then String.mk (intChars (roundHalfEven g.value.toQ))
  else
    String.mk (fixedTwoOpt (fmtLoop F (F.conv g.value) 0).1)
      ++ suffixes.getD (fmtLoop F (F.conv g.value) 0).2 ""

/-! ## Definitions: DateTime (`datetime.datetime`) -/

/-- A `datetime.datetime` value (naive, microsecond resolution). -/
structure DateTime where
  year : ℕ
  month : ℕ
  day : ℕ
  hour : ℕ
  minute : ℕ
  second : ℕ
  microsecond : ℕ
  deriving DecidableEq

/-- Gregorian leap-year test (CPython `_is_leap`). -/
def isLeapYear (y : ℕ) : Bool :=
  y % 4 = 0 && (y % 100 ≠ 0 || y % 400 = 0)

/-- Days in a month (CPython `_days_in_month`). -/
def daysInMonth (y m : ℕ) : ℕ :=
  if m = 2 then (if isLeapYear y then 29 else 28)
  else if m = 4 ∨ m = 6 ∨ m = 9 ∨ m = 11 then 30
  else 31

/-- Days in the year strictly before month `m` of a non-leap year
(CPython `_DAYS_BEFORE_MONTH`). -/
def daysBeforeMonth (m : ℕ) : ℕ :=
  [0, 0, 31, 59, 90, 120, 151, 181, 212, 243, 273, 304, 334].getD m 0

/-- Proleptic Gregorian ordinal of a date (CPython `_ymd2ord`):
January 1 of year 1 is day 1. -/
def toOrdinal (y m d : ℕ) : ℕ :=
  365 * (y - 1) + (y - 1) / 4 - (y - 1) / 100 + (y - 1) / 400
    + daysBeforeMonth m + (if 2 < m ∧ isLeapYear y then 1 else 0) + d

/-- The timeline CPython's `datetime` subtraction works on: microseconds
from the ordinal epoch.  Differences of this function are exactly
`(a - b).total_seconds() * 10⁶`. -/
def DateTime.toMicroseconds (t : DateTime) : ℤ :=
  ((((toOrdinal t.year t.month t.day) * 24 + t.hour) * 60 + t.minute) * 60
      + t.second) * 1000000 + t.microsecond

/-- Field ranges enforced by the `datetime` constructor. -/
def DateTime.Valid (t : DateTime) : Prop :=
  1 ≤ t.year ∧ t.year ≤ 9999 ∧ 1 ≤ t.month ∧ t.month ≤ 12 ∧
  1 ≤ t.day ∧ t.day ≤ daysInMonth t.year t.month ∧
  t.hour ≤ 23 ∧ t.minute ≤ 59 ∧ t.second ≤ 59 ∧ t.microsecond ≤ 999999

instance (t : DateTime) : Decidable t.Valid := by
  unfold DateTime.Valid
  infer_instance

/-! ## Definitions: GameState (`idle_game/models.py`) -/

/-- Class `GameState`: core game state.  The Python methods mutate `self`; they are
modelled as functions returning the updated state and the Python return
value. -/
structure GameState where
  counter : GameNumber
  click_power : GameNumber
  auto_increment : GameNumber
  last_update : DateTime
  last_save : DateTime
  deriving DecidableEq

/-- Abstract interface to
`Decimal(str((current_time - self.last_update).total_seconds()))`: the exact
elapsed microsecond count `Δ` goes through float64 division by `10⁶`,
shortest-repr `str`, and the exact `Decimal` text constructor.  The fields
are standard float64/repr guarantees: below `10¹⁵` μs the quotient has at
most 15 significant digits, so the value survives the float64 round trip
exactly, the shortest repr has at most 17 digits, and (the quotient being
positional, below `10¹⁵`) the parsed exponent lies in `[-25, 0]`; the sign
of `Δ` always survives.  A theorem quantified over every `TimeModel` holds
of the program whatever the float behavior; `exactTime` below is the
distinguished exact instance. -/
structure TimeModel where
  totalSecondsDec : ℤ → Dec
  exact_small : ∀ Δ : ℤ, Δ.natAbs < 10 ^ 15 →
    (totalSecondsDec Δ).toQ = (Δ : ℚ) / 1000000
      ∧ (totalSecondsDec Δ).c.natAbs < 10 ^ 17
      ∧ -25 ≤ (totalSecondsDec Δ).e ∧ (totalSecondsDec Δ).e ≤ 0
  sign_nonneg : ∀ Δ : ℤ, 0 ≤ Δ → 0 ≤ (totalSecondsDec Δ).c

/-- The error-free `TimeModel` (`Δ` microseconds parse back as the exact
decimal `⟨Δ, -6⟩`), used to instantiate universally quantified theorems. -/
def exactTime : TimeModel where
  totalSecondsDec Δ := ⟨Δ, -6⟩
  exact_small Δ h := by
    refine ⟨?_, by simpa using h.trans (by norm_num), by norm_num, by norm_num⟩
    show (Δ : ℚ) * (10 : ℚ) ^ (-6 : ℤ) = (Δ : ℚ) / 1000000
    norm_num
    ring
  sign_nonneg Δ h := h

/-- Method `GameState.update`: update state and return increment amount,
under a given model `T` of the float64 elapsed-seconds conversion. -/
def GameState.update (s : GameState) (T : TimeModel)
    (current_time : DateTime) : GameState × GameNumber :=
  let deltaMicros : ℤ :=
    current_time.toMicroseconds - s.last_update.toMicroseconds
  let increment := s.auto_increment.multiply (T.totalSecondsDec deltaMicros)
  ({ s with
      counter := s.counter.add increment.value
      last_update := current_time },
    increment)

/-- Method `GameState.click`: handle manual click. -/
def GameState.click (s : GameState) : GameState × GameNumber :=
  ({ s with counter := s.counter.add s.click_power.value }, s.click_power)

/-- Method `GameState.calculate_offline_earnings`: calculate earnings while the game
was closed.  The method body reads `auto_increment` and touches no field; the
state component of the result is the state the method leaves behind.
`Decimal(str(seconds_offline))` is modelled by taking the elapsed seconds as
a decimal. -/
def GameState.calculate_offline_earnings (s : GameState) (seconds_offline : Dec) :
    GameState × GameNumber :=
  (s, s.auto_increment.multiply seconds_offline)

/-! ## Definitions: `str(Decimal)` and `Decimal(str)`
(`_pydecimal.__str__` and the constructor's number grammar) -/

/-- Python `str(Decimal)`, the to-scientific-string algorithm of
`_pydecimal.Decimal.__str__` on finite values. -/
def Dec.toChars (d : Dec) : List Char :=
  let sign : List Char := if d.c < 0 then ['-'] else []
  let digits := natChars d.c.natAbs
  let len : ℤ := (digits.length : ℤ)
  let leftdigits := d.e + len
  let dotplace := if d.e ≤ 0 ∧ -6 < leftdigits then leftdigits else 1
  let intpart : List Char :=
    if dotplace ≤ 0 then ['0']
    else if len ≤ dotplace then digits ++ List.replicate (dotplace - len).toNat '0'
    else digits.take dotplace.toNat
  let fracpart : List Char :=
    if dotplace ≤ 0 then '.' :: (List.replicate (-dotplace).toNat '0' ++ digits)
    else if len ≤ dotplace then []
    else '.' :: digits.drop dotplace.toNat
  let exppart : List Char :=
    if leftdigits = dotplace then []
    else 'E' :: ((if 0 ≤ leftdigits - dotplace then ['+'] else ['-'])
      ++ natChars (leftdigits - dotplace).natAbs)
  sign ++ intpart ++ fracpart ++ exppart

/-- Split a character list at the first character satisfying `p`; the second
component is `none` when no such character occurs. -/
def splitAtChar (p : Char → Bool) : List Char → List Char × Option (List Char)
  | [] => ([], none)
  | a :: t =>
    if p a then ([], some t)
    else ((splitAtChar p t).1.cons a, (splitAtChar p t).2)

/-- Strip one optional leading sign; `true` means negative. -/
def stripSign : List Char → Bool × List Char
  | '-' :: t => (true, t)
  | '+' :: t => (false, t)
  | l => (false, l)

/-- Parse an optionally signed nonempty digit run (the exponent of the
`Decimal` number grammar). -/
def parseExpInt (l : List Char) : Option ℤ :=
  let s := stripSign l
  if s.2 ≠ [] ∧ s.2.all Char.isDigit then
    some ((if s.1 then -1 else 1) * (charsToNat s.2 : ℤ))
  else none

/-- The sign-independent part of the `Decimal(string)` constructor: split the
exponent at `E`/`e`, split the mantissa at `.`, validate that both mantissa
parts are digit runs with at least one digit overall. -/
def parseRest (neg : Bool) (rest : List Char) : Option Dec :=
  let m := splitAtChar (fun c => c == 'E' || c == 'e') rest
  let ip := (splitAtChar (fun c => c == '.') m.1).1
  let fp := ((splitAtChar (fun c => c == '.') m.1).2).getD []
  let expVal : Option ℤ :=
    match m.2 with
    | none => some 0
    | some es => parseExpInt es
  match expVal with
  | none => none
  | some ev =>
    if ip.all Char.isDigit ∧ fp.all Char.isDigit ∧ ip ++ fp ≠ [] then
      some ⟨(if neg then -1 else 1) * (charsToNat (ip ++ fp) : ℤ),
        ev - (fp.length : ℤ)⟩
    else none

/-- Python `Decimal(string)` on the finite-number grammar
`[sign] (digits [. digits*] | . digits) [E [sign] digits]`; returns the
coefficient/exponent pair the constructor builds (leading zeros of the
coefficient collapse, exponent decreased by the fraction length). -/
def parseDecChars (l : List Char) : Option Dec :=
  parseRest (stripSign l).1 (stripSign l).2

/-! ## Definitions: ISO timestamp encoding
(`datetime.isoformat` / `datetime.fromisoformat`) -/

/-- Python `datetime.isoformat()`: `YYYY-MM-DDTHH:MM:SS[.ffffff]`, the microsecond
part omitted when zero. -/
def DateTime.isoChars (t : DateTime) : List Char :=
  padChars 4 t.year ++ '-' ::
    (padChars 2 t.month ++ '-' ::
      (padChars 2 t.day ++ 'T' ::
        (padChars 2 t.hour ++ ':' ::
          (padChars 2 t.minute ++ ':' ::
            (padChars 2 t.second ++
              (if t.microsecond = 0 then []
                else '.' :: padChars 6 t.microsecond))))))

/-- Read exactly `w` digit characters as a number, returning the rest. -/
def readFixedNat (w : ℕ) (l : List Char) : Option (ℕ × List Char) :=
  if (l.take w).length = w ∧ (l.take w).all Char.isDigit then
    some (charsToNat (l.take w), l.drop w)
  else none

/-- Expect a specific separator character. -/
def expectChar (c : Char) : List Char → Option (List Char)
  | [] => none
  | a :: t => if a = c then some t else none

/-- Python `datetime.fromisoformat` on the canonical `isoformat` output, including
the constructor's range validation; a fraction of 1–6 digits scales to
microseconds as CPython does. -/
def parseIsoChars (l : List Char) : Option DateTime := do
  let (y, r1) ← readFixedNat 4 l
  let r2 ← expectChar '-' r1
  let (mo, r3) ← readFixedNat 2 r2
  let r4 ← expectChar '-' r3
  let (d, r5) ← readFixedNat 2 r4
  let r6 ← expectChar 'T' r5
  let (h, r7) ← readFixedNat 2 r6
  let r8 ← expectChar ':' r7
  let (mi, r9) ← readFixedNat 2 r8
  let r10 ← expectChar ':' r9
  let (sec, r11) ← readFixedNat 2 r10
  let us ← match r11 with
    | [] => some 0
    | '.' :: fs =>
      if fs ≠ [] ∧ fs.length ≤ 6 ∧ fs.all Char.isDigit then
        some (charsToNat fs * 10 ^ (6 - fs.length))
      else none
    | _ => none
  let t : DateTime := ⟨y, mo, d, h, mi, sec, us⟩
  if t.Valid then some t else none

/-! ## Definitions: GameDatabase (`idle_game/database.py`) -/

/-- The singleton `game_state` row: five `TEXT` columns. -/
structure Row where
  counter : String
  click_power : String
  auto_increment : String
  last_update : String
  last_save : String
  deriving DecidableEq

instance {ε α : Type} [DecidableEq ε] [DecidableEq α] : DecidableEq (Except ε α) :=
  fun x y =>
    match x, y with
    | .ok a, .ok b => if h : a = b then isTrue (by rw [h]) else isFalse (by simp [h])
    | .error a, .error b =>
      if h : a = b then isTrue (by rw [h]) else isFalse (by simp [h])
    | .ok _, .error _ => isFalse (by simp)
    | .error _, .ok _ => isFalse (by simp)

namespace GameDatabase

/-- Method `GameDatabase.save_state`: stamps `state.last_save = datetime.now()`
(the `now` argument) and upserts the singleton row holding `str(...)` of the
three decimals and `isoformat()` of the two timestamps.  Returns the mutated
state and the written row. -/
def save_state (state : GameState) (now : DateTime) : GameState × Row :=
  let stamped := { state with last_save := now }
  (stamped,
    ⟨String.mk stamped.counter.value.toChars,
      String.mk stamped.click_power.value.toChars,
      String.mk stamped.auto_increment.value.toChars,
      String.mk stamped.last_update.isoChars,
      String.mk stamped.last_save.isoChars⟩)

/-- Method `GameDatabase.load_state`: `None` (absent) when no singleton row exists;
otherwise reconstructs the state, any undecodable field raising
(`InvalidOperation` / `ValueError`), modelled as `Except.error`. -/
def load_state (row : Option Row) : Except String (Option GameState) :=
  match row with
  | none => Except.ok none
  | some r =>
    match parseDecChars r.counter.data, parseDecChars r.click_power.data,
        parseDecChars r.auto_increment.data, parseIsoChars r.last_update.data,
        parseIsoChars r.last_save.data with
    | some c, some cp, some ai, some lu, some ls =>
      Except.ok (some ⟨⟨c⟩, ⟨cp⟩, ⟨ai⟩, lu, ls⟩)
    | _, _, _, _, _ => Except.error "row exists but a field failed to decode"

end GameDatabase

/-! ## Definitions: reset tool (`reset_game.py`) -/

/-- Python `str.lower()` (the responses of interest are ASCII). -/
def strToLower (s : String) : String := String.mk (s.data.map Char.toLower)

/-- The distinct outcomes `reset_game.py` reports. -/
inductive ResetOutcome
  | success
  | cancelled
  | absent
  | errorExit
  deriving DecidableEq

/-- Script `reset_game()` as a function of its observable inputs: whether
`data/game.db` exists, the interactive response, and whether the `unlink`
raises.  Returns the reported outcome, whether the store still exists
afterwards, and the process exit code (`sys.exit(1)` on an unexpected
error, normal termination otherwise). -/
def reset_game (dbExists : Bool) (response : String) (unlinkRaises : Bool) :
    ResetOutcome × Bool × ℕ :=
  if dbExists then
    if strToLower response = "yes" ∨ strToLower response = "y" then
      if unlinkRaises then (.errorExit, true, 1)
      else (.success, false, 0)
    else (.cancelled, true, 0)
  else (.absent, false, 0)

/-! ## Theorems: digit strings -/

theorem digitChar_toNat {d : ℕ} (h : d < 10) : (Nat.digitChar d).toNat = 48 + d := by
  interval_cases d <;> rfl

theorem digitChar_isDigit {d : ℕ} (h : d < 10) : (Nat.digitChar d).isDigit = true := by
  interval_cases d <;> rfl

theorem isDigit_toNat_bounds {c : Char} (h : c.isDigit = true) :
    48 ≤ c.toNat ∧ c.toNat ≤ 57 := by
  simp only [Char.isDigit, decide_eq_true_eq, Bool.and_eq_true] at h
  obtain ⟨h1, h2⟩ := h
  exact ⟨h1, h2⟩

theorem natDigitsRev_eq_digits {fuel n : ℕ} (h : n ≤ fuel) :
    natDigitsRev fuel n = Nat.digits 10 n := by
  induction fuel generalizing n with
  | zero =>
    interval_cases n
    simp [natDigitsRev]
  | succ fuel ih =>
    rcases Nat.eq_zero_or_pos n with rfl | hn
    · simp [natDigitsRev]
    · rw [natDigitsRev, if_neg (by omega), Nat.digits_def' (by norm_num) hn,
        ih (by omega)]

theorem natChars_eq_digits (n : ℕ) :
    natChars n = if n = 0 then ['0']
      else ((Nat.digits 10 n).map Nat.digitChar).reverse := by
  unfold natChars
  rw [natDigitsRev_eq_digits le_rfl]

theorem natChars_ne_nil (n : ℕ) : natChars n ≠ [] := by
  rw [natChars_eq_digits]
  split
  · simp
  · rename_i h
    have hnil : Nat.digits 10 n ≠ [] := Nat.digits_ne_nil_iff_ne_zero.mpr h
    simp [hnil]

theorem natChars_all_digit (n : ℕ) : ∀ c ∈ natChars n, c.isDigit = true := by
  intro c hc
  rw [natChars_eq_digits] at hc
  split at hc
  · simp at hc; subst hc; rfl
  · simp only [List.mem_reverse, List.mem_map] at hc
    obtain ⟨d, hd, rfl⟩ := hc
    exact digitChar_isDigit (Nat.digits_lt_base (by norm_num) hd)

/-- Reading digit characters most-significant-first, with accumulator. -/
theorem charsToNat_foldl_digits (ds : List ℕ) (hds : ∀ d ∈ ds, d < 10) (a : ℕ) :
    List.foldl (fun a c => 10 * a + (c.toNat - 48)) a (ds.map Nat.digitChar)
      = a * 10 ^ ds.length + Nat.ofDigits 10 ds.reverse := by
  induction ds generalizing a with
  | nil => simp
  | cons d t ih =>
    have hd : d < 10 := hds d (by simp)
    simp only [List.map_cons, List.foldl_cons, List.reverse_cons, List.length_cons]
    rw [ih (fun x hx => hds x (by simp [hx])), digitChar_toNat hd]
    have h48 : 10 * a + (48 + d - 48) = 10 * a + d := by omega
    rw [h48, Nat.ofDigits_append, List.length_reverse]
    simp only [Nat.ofDigits_singleton, pow_succ]
    ring

theorem charsToNat_natChars (n : ℕ) : charsToNat (natChars n) = n := by
  rw [natChars_eq_digits]
  unfold charsToNat
  split
  · subst n; rfl
  · rw [← List.map_reverse,
      charsToNat_foldl_digits _ (fun d hd => Nat.digits_lt_base (by norm_num)
        (List.mem_reverse.mp hd)) 0]
    simp [Nat.ofDigits_digits]

/-- Leading zero characters do not change the parsed value. -/
theorem charsToNat_replicate_zero_append (k : ℕ) (l : List Char) :
    charsToNat (List.replicate k '0' ++ l) = charsToNat l := by
  induction k with
  | zero => simp
  | succ k ih =>
    simpa [charsToNat, List.replicate_succ] using ih

/-! ## Theorems: decimal values -/

theorem Dec.toQ_mk (c e : ℤ) : Dec.toQ ⟨c, e⟩ = (c : ℚ) * (10 : ℚ) ^ e := rfl

theorem zpow_sub_toNat (e m : ℤ) (h : m ≤ e) :
    ((10 : ℚ) ^ (e - m).toNat) * (10 : ℚ) ^ m = (10 : ℚ) ^ e := by
  rw [← zpow_natCast (10 : ℚ) (e - m).toNat, Int.toNat_of_nonneg (by omega),
    ← zpow_add₀ (by norm_num : (10 : ℚ) ≠ 0)]
  congr 1
  omega

/-- The exact pre-rounding sum is value-correct. -/
theorem Dec.toQ_addRaw (a b : Dec) : (a.addRaw b).toQ = a.toQ + b.toQ := by
  unfold Dec.addRaw Dec.toQ
  push_cast
  rw [add_mul, mul_assoc, mul_assoc,
    zpow_sub_toNat a.e (min a.e b.e) (min_le_left _ _),
    zpow_sub_toNat b.e (min a.e b.e) (min_le_right _ _)]

/-- The exact pre-rounding product is value-correct. -/
theorem Dec.toQ_mulRaw (a b : Dec) : (a.mulRaw b).toQ = a.toQ * b.toQ := by
  unfold Dec.mulRaw Dec.toQ
  push_cast
  rw [zpow_add₀ (by norm_num : (10 : ℚ) ≠ 0)]
  ring

theorem Dec.toQ_zeroExp (c : ℤ) : Dec.toQ ⟨c, 0⟩ = (c : ℚ) := by
  simp [Dec.toQ]

/-! ## Theorems: rounding evaluation -/

theorem roundHalfEven_down (q : ℚ) (f : ℤ) (h1 : (f : ℚ) ≤ q)
    (h2 : q - f < 1 / 2) : roundHalfEven q = f := by
  have hf : ⌊q⌋ = f := Int.floor_eq_iff.mpr ⟨h1, by linarith⟩
  unfold roundHalfEven
  rw [hf, if_pos h2]

theorem roundHalfEven_up (q : ℚ) (f : ℤ) (h0 : q < (f : ℚ) + 1)
    (h2 : 1 / 2 < q - f) : roundHalfEven q = f + 1 := by
  have hf : ⌊q⌋ = f := Int.floor_eq_iff.mpr ⟨by linarith, h0⟩
  unfold roundHalfEven
  rw [hf, if_neg (by linarith), if_pos h2]

theorem roundHalfEven_tie (q : ℚ) (f : ℤ) (h2 : q - f = 1 / 2) :
    roundHalfEven q = if f % 2 = 0 then f else f + 1 := by
  have hf : ⌊q⌋ = f := Int.floor_eq_iff.mpr ⟨by linarith, by linarith⟩
  unfold roundHalfEven
  rw [hf, if_neg (by linarith), if_neg (by linarith)]

theorem roundHalfEven_intCast (k : ℤ) : roundHalfEven ((k : ℚ)) = k :=
  roundHalfEven_down _ _ (by norm_num) (by norm_num)

theorem fixedTwo_eval (q : ℚ) (k : ℤ) (h : roundHalfEven (q * 100) = k) :
    fixedTwo q = natChars (k.toNat / 100) ++ '.' :: padChars 2 (k.toNat % 100) := by
  unfold fixedTwo
  rw [h]

/-! ## Theorems: zero-padded fixed-width numerals -/

theorem natChars_length_le {w n : ℕ} (h : n < 10 ^ w) (hw : 1 ≤ w) :
    (natChars n).length ≤ w := by
  rw [natChars_eq_digits]
  split
  · simpa
  · rename_i hn
    rw [List.length_reverse, List.length_map,
      Nat.digits_len 10 n (by norm_num) hn]
    have := (Nat.lt_pow_iff_log_lt (by norm_num) hn).mp h
    omega

theorem padChars_length {w n : ℕ} (h : n < 10 ^ w) (hw : 1 ≤ w) :
    (padChars w n).length = w := by
  unfold padChars
  rw [List.length_append, List.length_replicate]
  have := natChars_length_le h hw
  omega

theorem padChars_all_digit (w n : ℕ) : ∀ c ∈ padChars w n, c.isDigit = true := by
  intro c hc
  unfold padChars at hc
  rcases List.mem_append.mp hc with h | h
  · rw [List.eq_of_mem_replicate h]
    rfl
  · exact natChars_all_digit n c h

theorem charsToNat_padChars (w n : ℕ) : charsToNat (padChars w n) = n := by
  unfold padChars
  rw [charsToNat_replicate_zero_append, charsToNat_natChars]

/-- Reading a fixed-width field off the front of a longer string. -/
theorem readFixedNat_pad {w n : ℕ} (rest : List Char) (h : n < 10 ^ w)
    (hw : 1 ≤ w) : readFixedNat w (padChars w n ++ rest) = some (n, rest) := by
  have hlen : (padChars w n).length = w := padChars_length h hw
  have htake : (padChars w n ++ rest).take w = padChars w n := by
    have hx := List.take_left (padChars w n) rest
    rw [hlen] at hx
    exact hx
  have hdrop : (padChars w n ++ rest).drop w = rest := by
    have hx := List.drop_left (padChars w n) rest
    rw [hlen] at hx
    exact hx
  unfold readFixedNat
  rw [htake, hdrop, if_pos ⟨hlen, List.all_eq_true.mpr
    (fun c hc => padChars_all_digit w n c hc)⟩, charsToNat_padChars]

theorem expectChar_cons (c : Char) (l : List Char) :
    expectChar c (c :: l) = some l := by
  simp [expectChar]

/-! ## Theorems: the 50-digit context rounding -/

theorem decFix_small {d : Dec} (h : d.c.natAbs < 10 ^ 50) : decFix d = d := by
  unfold decFix
  rw [if_pos h]

theorem Dec.toQ_add_small (a b : Dec) (h : (a.addRaw b).c.natAbs < 10 ^ 50) :
    (a.add b).toQ = a.toQ + b.toQ := by
  rw [Dec.add, decFix_small h, Dec.toQ_addRaw]

theorem Dec.toQ_multiply_small (a b : Dec)
    (h : (a.mulRaw b).c.natAbs < 10 ^ 50) :
    (a.multiply b).toQ = a.toQ * b.toQ := by
  rw [Dec.multiply, decFix_small h, Dec.toQ_mulRaw]

theorem decFix_c_nonneg (d : Dec) (h : 0 ≤ d.c) : 0 ≤ (decFix d).c := by
  unfold decFix
  split
  · exact h
  · split
    · dsimp only
      rw [if_neg (not_lt.mpr h)]
      positivity
    · dsimp only
      rw [if_neg (not_lt.mpr h)]
      positivity

theorem Dec.toQ_nonneg (d : Dec) (h : 0 ≤ d.c) : 0 ≤ d.toQ :=
  mul_nonneg (by exact_mod_cast h) (zpow_nonneg (by norm_num) _)

theorem natChars_length_eq {n L : ℕ} (h1 : 10 ^ L ≤ n) (h2 : n < 10 ^ (L + 1)) :
    (natChars n).length = L + 1 := by
  have hn : n ≠ 0 := by
    have : 0 < (10 : ℕ) ^ L := pow_pos (by norm_num) L
    omega
  rw [natChars_eq_digits, if_neg hn, List.length_reverse, List.length_map,
    Nat.digits_len 10 n (by norm_num) hn,
    Nat.log_eq_of_pow_le_of_lt_pow h1 h2]

/-- Bound on the aligned coefficient when adding a value of exponent `0` to a
value whose exponent lies in `[-25, 0]`. -/
theorem addRaw_natAbs_bound (ca : ℤ) (b : Dec) (A B : ℕ)
    (hca : ca.natAbs ≤ A) (hcb : b.c.natAbs ≤ B)
    (he1 : -25 ≤ b.e) (he2 : b.e ≤ 0) :
    ((⟨ca, 0⟩ : Dec).addRaw b).c.natAbs ≤ A * 10 ^ 25 + B := by
  have hmin : min (0 : ℤ) b.e = b.e := min_eq_right he2
  have hcoeff : ((⟨ca, 0⟩ : Dec).addRaw b).c
      = ca * 10 ^ ((0 - b.e).toNat) + b.c := by
    unfold Dec.addRaw
    dsimp only
    rw [hmin, sub_self, Int.toNat_zero, pow_zero, mul_one]
  rw [hcoeff]
  have ht : (0 - b.e).toNat ≤ 25 := by omega
  have hfac : (ca * 10 ^ ((0 - b.e).toNat)).natAbs ≤ A * 10 ^ 25 := by
    rw [Int.natAbs_mul, Int.natAbs_pow]
    exact Nat.mul_le_mul hca (Nat.pow_le_pow_right (by norm_num) ht)
  calc (ca * 10 ^ ((0 - b.e).toNat) + b.c).natAbs
      ≤ (ca * 10 ^ ((0 - b.e).toNat)).natAbs + b.c.natAbs :=
        Int.natAbs_add_le _ _
    _ ≤ A * 10 ^ 25 + B := Nat.add_le_add hfac hcb

/-- The context rounding on a 51-digit coefficient `10⁵⁰ + 4` (possibly
padded with trailing zeros by exponent alignment): the trailing `4` is
rounded away, leaving the 50-digit coefficient `10⁴⁹` one exponent up. -/
theorem decFix_51 (e : ℤ) (he : e ≤ 0) :
    decFix ⟨((10 : ℤ) ^ 50 + 4) * 10 ^ (0 - e).toNat, e⟩
      = ⟨(10 : ℤ) ^ 49, 1⟩ := by
  set t := (0 - e).toNat with htdef
  have hte : (t : ℤ) = -e := by omega
  have hplus : (((10 : ℤ) ^ 50 + 4) * 10 ^ t)
      = (((10 ^ 50 + 4) * 10 ^ t : ℕ) : ℤ) := by push_cast; ring
  have hnabs : (((10 : ℤ) ^ 50 + 4) * 10 ^ t).natAbs
      = (10 ^ 50 + 4) * 10 ^ t := by
    rw [hplus, Int.natAbs_ofNat]
  have hpow_pos : 0 < (10 : ℕ) ^ t := pow_pos (by norm_num) t
  have hbig : ¬ (((10 : ℤ) ^ 50 + 4) * 10 ^ t).natAbs < 10 ^ 50 := by
    rw [hnabs]
    push_neg
    calc (10 : ℕ) ^ 50 ≤ 10 ^ 50 + 4 := by omega
      _ ≤ (10 ^ 50 + 4) * 10 ^ t := Nat.le_mul_of_pos_right _ hpow_pos
  have hlen : (natChars ((10 ^ 50 + 4) * 10 ^ t)).length = 51 + t := by
    rw [show (51 + t) = (50 + t) + 1 from by omega]
    apply natChars_length_eq
    · rw [pow_add]
      exact Nat.mul_le_mul_right _ (by norm_num)
    · rw [show (50 + t + 1) = 51 + t from by omega, pow_add]
      exact (Nat.mul_lt_mul_right hpow_pos).mpr (by norm_num)
  have h410 : 4 * 10 ^ t < 10 ^ (t + 1) := by
    rw [pow_succ]
    omega
  have hsplit : (10 ^ 50 + 4) * 10 ^ t
      = 4 * 10 ^ t + 10 ^ (t + 1) * 10 ^ 49 := by
    rw [pow_succ]
    ring
  have hmod : ((10 ^ 50 + 4) * 10 ^ t) % 10 ^ (t + 1) = 4 * 10 ^ t := by
    rw [hsplit, Nat.add_mul_mod_self_left, Nat.mod_eq_of_lt h410]
  have hdiv : ((10 ^ 50 + 4) * 10 ^ t) / 10 ^ (t + 1) = 10 ^ 49 := by
    rw [hsplit, Nat.add_mul_div_left _ _ (pow_pos (by norm_num) (t + 1)),
      Nat.div_eq_of_lt h410, zero_add]
  have hq : roundHalfEvenNat ((10 ^ 50 + 4) * 10 ^ t) (10 ^ (t + 1))
      = 10 ^ 49 := by
    unfold roundHalfEvenNat
    rw [hmod, hdiv, if_pos (by rw [pow_succ]; omega)]
  have hcpos : ¬ ((10 : ℤ) ^ 50 + 4) * 10 ^ t < 0 := not_lt.mpr (by positivity)
  unfold decFix
  dsimp only
  rw [if_neg hbig, hnabs, hlen, show 51 + t - 50 = t + 1 from by omega, hq,
    if_neg (by norm_num : ¬ (10 : ℕ) ^ 49 = 10 ^ 50), if_neg hcpos]
  rw [Dec.mk.injEq]
  constructor
  · push_cast
  · push_cast
    omega

/-! ## Theorems: the suffix-division loop -/

theorem fmtLoopGo_succ_some (F : FloatModel) (fuel : ℕ) (q : ℚ) (mag : ℕ) :
    fmtLoopGo F (fuel + 1) (some q) mag
      = if 1000 ≤ |q| then fmtLoopGo F fuel (some (F.div1000 q)) (mag + 1)
        else (some q, mag) := rfl

theorem fmtLoopGo_none (F : FloatModel) (fuel : ℕ) :
    ∀ mag : ℕ, fmtLoopGo F fuel none mag = (none, mag + fuel) := by
  induction fuel with
  | zero => intro mag; rfl
  | succ fuel ih =>
    intro mag
    show fmtLoopGo F fuel none (mag + 1) = (none, mag + (fuel + 1))
    rw [ih]
    congr 1
    omega

theorem fmtLoopGo_mag_le (F : FloatModel) :
    ∀ (fuel : ℕ) (num : Option ℚ) (mag : ℕ),
      (fmtLoopGo F fuel num mag).2 ≤ mag + fuel := by
  intro fuel
  induction fuel with
  | zero =>
    intro num mag
    show mag ≤ mag + 0
    omega
  | succ fuel ih =>
    intro num mag
    cases num with
    | none =>
      rw [fmtLoopGo_none]
    | some q =>
      rw [fmtLoopGo_succ_some]
      split
      · exact le_trans (ih _ _) (by omega)
      · show mag ≤ mag + (fuel + 1)
        omega

/-- Eleven relative errors of a half-ulp each cannot halve a value. -/
theorem eps_pow_half (n : ℕ) (h : n ≤ 11) : (1 / 2 : ℚ) ≤ (1 - epsF) ^ n := by
  have h2 := one_add_mul_le_pow (show (-2 : ℚ) ≤ -epsF by norm_num [epsF]) 11
  have h1 : (1 - epsF) ^ 11 ≤ (1 - epsF) ^ n :=
    pow_le_pow_of_le_one (by norm_num [epsF]) (by norm_num [epsF]) h
  have h2' : (1 / 2 : ℚ) ≤ (1 + -epsF) ^ 11 := by
    refine le_trans ?_ h2
    push_cast
    norm_num [epsF]
  calc (1 / 2 : ℚ) ≤ (1 + -epsF) ^ 11 := h2'
    _ = (1 - epsF) ^ 11 := by ring_nf
    _ ≤ (1 - epsF) ^ n := h1

/-- A float at least `(1-eps)^(12-fuel) * 1000^(fuel+1)` keeps the loop
dividing for all of its remaining `fuel` iterations, whatever the rounding
of each division. -/
theorem fmtLoopGo_full (F : FloatModel) :
    ∀ (fuel : ℕ) (q : ℚ) (mag : ℕ), fuel ≤ 11 →
      (1 - epsF) ^ (12 - fuel) * 1000 ^ (fuel + 1) ≤ q →
      (fmtLoopGo F fuel (some q) mag).2 = mag + fuel := by
  intro fuel
  induction fuel with
  | zero => intro q mag _ _; rfl
  | succ fuel ih =>
    intro q mag hf hq
    have hhalf : (1 / 2 : ℚ) ≤ (1 - epsF) ^ (12 - (fuel + 1)) :=
      eps_pow_half _ (by omega)
    have hpow2 : (1000 : ℚ) ^ 2 ≤ 1000 ^ (fuel + 1 + 1) :=
      pow_le_pow_right₀ (by norm_num) (by omega)
    have hq1000 : (1000 : ℚ) ≤ q := by
      have hmm : (1 / 2 : ℚ) * 1000 ^ 2
          ≤ (1 - epsF) ^ (12 - (fuel + 1)) * 1000 ^ (fuel + 1 + 1) :=
        mul_le_mul hhalf hpow2 (by positivity)
          (pow_nonneg (by norm_num [epsF]) _)
      nlinarith
    have hqpos : (0 : ℚ) ≤ q := by linarith
    rw [fmtLoopGo_succ_some, if_pos (by rw [abs_of_nonneg hqpos]; exact hq1000)]
    have hdivge : (1 : ℚ) ≤ q / 1000 := by
      rw [le_div_iff₀ (by norm_num)]
      linarith
    have hlow := F.div_lower q hdivge
    have hnext : (1 - epsF) ^ (12 - fuel) * 1000 ^ (fuel + 1) ≤ F.div1000 q := by
      have he : (12 - fuel) = (12 - (fuel + 1)) + 1 := by omega
      rw [he, pow_succ]
      have hq' : (1 - epsF) ^ (12 - (fuel + 1)) * 1000 ^ (fuel + 1) ≤ q / 1000 := by
        rw [le_div_iff₀ (by norm_num)]
        calc (1 - epsF) ^ (12 - (fuel + 1)) * 1000 ^ (fuel + 1) * 1000
            = (1 - epsF) ^ (12 - (fuel + 1)) * 1000 ^ (fuel + 1 + 1) := by ring
          _ ≤ q := hq
      calc (1 - epsF) ^ (12 - (fuel + 1)) * (1 - epsF) * 1000 ^ (fuel + 1)
          = (1 - epsF) * ((1 - epsF) ^ (12 - (fuel + 1)) * 1000 ^ (fuel + 1)) := by
            ring
        _ ≤ (1 - epsF) * (q / 1000) :=
            mul_le_mul_of_nonneg_left hq' (by norm_num [epsF])
        _ ≤ F.div1000 q := hlow
    rw [ih (F.div1000 q) (mag + 1) (by omega) hnext]
    omega

/-- When the loop stops before exhausting its fuel, the running float is
finite. -/
theorem fmtLoopGo_lt_some (F : FloatModel) :
    ∀ (fuel : ℕ) (num : Option ℚ) (mag : ℕ),
      (fmtLoopGo F fuel num mag).2 < mag + fuel →
      ∃ q : ℚ, (fmtLoopGo F fuel num mag).1 = some q := by
  intro fuel
  induction fuel with
  | zero =>
    intro num mag h
    have h2 : (fmtLoopGo F 0 num mag).2 = mag := rfl
    omega
  | succ fuel ih =>
    intro num mag h
    cases num with
    | none =>
      rw [fmtLoopGo_none] at h
      exact absurd h (by omega)
    | some q =>
      rw [fmtLoopGo_succ_some] at h ⊢
      by_cases hg : (1000 : ℚ) ≤ |q|
      · rw [if_pos hg] at h ⊢
        exact ih _ _ (by omega)
      · rw [if_neg hg]
        exact ⟨q, rfl⟩

/-- Interval propagation through one correctly rounded division by 1000. -/
theorem div_bounds (F : FloatModel) (q a b : ℚ) (ha : 1000 ≤ a)
    (hl : a ≤ q) (hu : q ≤ b) :
    (1 - epsF) * (a / 1000) ≤ F.div1000 q
      ∧ F.div1000 q ≤ (1 + epsF) * (b / 1000) := by
  have hq1 : (1 : ℚ) ≤ q / 1000 := by
    rw [le_div_iff₀ (by norm_num)]
    linarith
  constructor
  · calc (1 - epsF) * (a / 1000) ≤ (1 - epsF) * (q / 1000) :=
        mul_le_mul_of_nonneg_left (by linarith) (by norm_num [epsF])
      _ ≤ F.div1000 q := F.div_lower q hq1
  · calc F.div1000 q ≤ (1 + epsF) * (q / 1000) := F.div_upper q hq1
      _ ≤ (1 + epsF) * (b / 1000) :=
        mul_le_mul_of_nonneg_left (by linarith) (by norm_num [epsF])

/-- A two-digit zero-padded field is two digit characters. -/
theorem padChars_two (m : ℕ) (h : m < 100) :
    ∃ b1 b2 : Char, padChars 2 m = b1 :: b2 :: []
      ∧ b1.isDigit = true ∧ b2.isDigit = true := by
  have hlen : (padChars 2 m).length = 2 :=
    padChars_length (by simpa using h) (by norm_num)
  obtain ⟨b1, b2, hb⟩ := List.length_eq_two.mp hlen
  refine ⟨b1, b2, hb, ?_, ?_⟩
  · exact padChars_all_digit 2 m b1 (by rw [hb]; simp)
  · exact padChars_all_digit 2 m b2 (by rw [hb]; simp)

/-- Conversion of an integral decimal with a coefficient within the 53-bit
float mantissa is exact. -/
theorem conv_int (F : FloatModel) (n : ℤ) (hn : n.natAbs ≤ 2 ^ 53) :
    F.conv ⟨n, 0⟩ = some (n : ℚ) := by
  have h := F.conv_exact ⟨n, 0⟩
    ⟨n, 0, by rw [Dec.toQ_mk]; norm_num, hn, by norm_num, by norm_num⟩
  rw [h]
  norm_num [Dec.toQ_mk]

/-- Unfolding the two branches of `GameNumber.format`. -/
theorem format_lt (F : FloatModel) (g : GameNumber) (h : g.value.toQ < 1000) :
    GameNumber.format F g = String.mk (intChars (roundHalfEven g.value.toQ)) := by
  rw [GameNumber.format, if_pos h]

theorem format_else (F : FloatModel) (g : GameNumber) (h : ¬ g.value.toQ < 1000) :
    GameNumber.format F g
      = String.mk (fixedTwoOpt (fmtLoop F (F.conv g.value) 0).1)
        ++ suffixes.getD (fmtLoop F (F.conv g.value) 0).2 "" := by
  rw [GameNumber.format, if_neg h]

theorem roundHalfEven_of_near (q : ℚ) (n : ℤ) (h1 : (n : ℚ) - 1 / 2 < q)
    (h2 : q < (n : ℚ) + 1 / 2) : roundHalfEven q = n := by
  rcases le_or_lt (n : ℚ) q with h | h
  · exact roundHalfEven_down q n h (by linarith)
  · have hu := roundHalfEven_up q (n - 1) (by push_cast; linarith)
      (by push_cast; linarith)
    rw [hu]
    omega

/-! ## Theorems: ISO timestamp round trip -/

set_option maxHeartbeats 2000000 in
/-- Parsing with `fromisoformat` inverts `isoformat` on every valid datetime. -/
theorem parseIso_isoChars (t : DateTime) (h : t.Valid) :
    parseIsoChars t.isoChars = some t := by
  obtain ⟨y, mo, d, hh, mi, ss, us⟩ := t
  simp only [DateTime.Valid] at h
  obtain ⟨h1, h2, h3, h4, h5, h6, h7, h8, h9, h10⟩ := h
  have hd31 : d ≤ 31 := le_trans h6 (by unfold daysInMonth; split_ifs <;> omega)
  unfold DateTime.isoChars parseIsoChars
  dsimp only
  rw [readFixedNat_pad _ (by omega) (by omega)]
  simp only [Option.pure_def, Option.bind_eq_bind, Option.some_bind]
  rw [expectChar_cons]
  simp only [Option.some_bind]
  rw [readFixedNat_pad _ (by omega) (by omega)]
  simp only [Option.some_bind]
  rw [expectChar_cons]
  simp only [Option.some_bind]
  rw [readFixedNat_pad _ (by omega) (by omega)]
  simp only [Option.some_bind]
  rw [expectChar_cons]
  simp only [Option.some_bind]
  rw [readFixedNat_pad _ (by omega) (by omega)]
  simp only [Option.some_bind]
  rw [expectChar_cons]
  simp only [Option.some_bind]
  rw [readFixedNat_pad _ (by omega) (by omega)]
  simp only [Option.some_bind]
  rw [expectChar_cons]
  simp only [Option.some_bind]
  rcases Nat.eq_zero_or_pos us with hus | hus
  · subst hus
    rw [if_pos rfl, @readFixedNat_pad 2 ss [] (by omega) (by omega)]
    simp only [Option.some_bind]
    rw [if_pos (show DateTime.Valid ⟨y, mo, d, hh, mi, ss, 0⟩ from
      ⟨h1, h2, h3, h4, h5, h6, h7, h8, h9, Nat.zero_le 999999⟩)]
  · rw [if_neg (by omega), readFixedNat_pad _ (by omega) (by omega)]
    simp only [Option.some_bind]
    have hfs : padChars 6 us ≠ [] := by
      have hl := padChars_length (show us < 10 ^ 6 by omega) (show 1 ≤ 6 by omega)
      intro hnil
      rw [hnil] at hl
      simp at hl
    rw [if_pos ⟨hfs,
      by rw [padChars_length (by omega) (by omega)],
      List.all_eq_true.mpr (fun c hc => padChars_all_digit _ _ c hc)⟩]
    rw [charsToNat_padChars, padChars_length (by omega) (by omega)]
    simp only [Nat.sub_self, pow_zero, Nat.mul_one]
    rw [if_pos (show DateTime.Valid ⟨y, mo, d, hh, mi, ss, us⟩ from
      ⟨h1, h2, h3, h4, h5, h6, h7, h8, h9, h10⟩)]

/-! ## Theorems: decimal string round trip -/

theorem splitAtChar_none (p : Char → Bool) (l : List Char)
    (h : ∀ c ∈ l, p c = false) : splitAtChar p l = (l, none) := by
  induction l with
  | nil => rfl
  | cons a t ih =>
    unfold splitAtChar
    rw [if_neg (by rw [h a (by simp)]; simp), ih (fun c hc => h c (by simp [hc]))]

theorem splitAtChar_found (p : Char → Bool) (a : List Char) (sep : Char)
    (b : List Char) (ha : ∀ c ∈ a, p c = false) (hsep : p sep = true) :
    splitAtChar p (a ++ sep :: b) = (a, some b) := by
  induction a with
  | nil =>
    rw [List.nil_append]
    simp only [splitAtChar]
    rw [if_pos hsep]
  | cons x t ih =>
    rw [List.cons_append]
    simp only [splitAtChar]
    rw [if_neg (by rw [ha x (by simp)]; simp), ih (fun c hc => ha c (by simp [hc]))]

theorem stripSign_neg (t : List Char) : stripSign ('-' :: t) = (true, t) := rfl

theorem stripSign_pos (t : List Char) : stripSign ('+' :: t) = (false, t) := rfl

theorem stripSign_digit (c : Char) (t : List Char) (h : c.isDigit = true) :
    stripSign (c :: t) = (false, c :: t) := by
  obtain ⟨hl, hr⟩ := isDigit_toNat_bounds h
  unfold stripSign
  split
  · rename_i heq
    rw [List.cons.injEq] at heq
    obtain ⟨rfl, -⟩ := heq
    exact absurd hl (by decide)
  · rename_i heq
    rw [List.cons.injEq] at heq
    obtain ⟨rfl, -⟩ := heq
    exact absurd hl (by decide)
  · rfl

theorem isDigit_not_special {c : Char} (h : c.isDigit = true) :
    (c == 'E' || c == 'e') = false ∧ (c == '.') = false := by
  obtain ⟨hl, hr⟩ := isDigit_toNat_bounds h
  constructor
  · rw [Bool.or_eq_false_iff]
    constructor
    · rw [beq_eq_false_iff_ne]
      intro rfl_eq
      subst rfl_eq
      exact absurd hr (by decide)
    · rw [beq_eq_false_iff_ne]
      intro rfl_eq
      subst rfl_eq
      exact absurd hr (by decide)
  · rw [beq_eq_false_iff_ne]
    intro rfl_eq
    subst rfl_eq
    exact absurd hl (by decide)

theorem isDigit_all_not_special {l : List Char} (h : ∀ c ∈ l, c.isDigit = true) :
    (∀ c ∈ l, (c == 'E' || c == 'e') = false) ∧ (∀ c ∈ l, (c == '.') = false) :=
  ⟨fun c hc => (isDigit_not_special (h c hc)).1,
    fun c hc => (isDigit_not_special (h c hc)).2⟩

theorem parseRest_dot (neg : Bool) (ip fp : List Char)
    (hip : ∀ c ∈ ip, c.isDigit = true) (hfp : ∀ c ∈ fp, c.isDigit = true)
    (hne : ip ++ fp ≠ []) :
    parseRest neg (ip ++ '.' :: fp)
      = some ⟨(if neg then -1 else 1) * (charsToNat (ip ++ fp) : ℤ),
          -(fp.length : ℤ)⟩ := by
  unfold parseRest
  dsimp only
  rw [splitAtChar_none (fun c => c == 'E' || c == 'e') (ip ++ '.' :: fp) (by
    intro c hc
    rcases List.mem_append.mp hc with h | h
    · exact (isDigit_not_special (hip c h)).1
    · rcases List.mem_cons.mp h with rfl | h
      · decide
      · exact (isDigit_not_special (hfp c h)).1)]
  dsimp only
  rw [splitAtChar_found (fun c => c == '.') ip '.' fp
    (fun c hc => (isDigit_not_special (hip c hc)).2) (by decide)]
  dsimp only [Option.getD_some]
  rw [if_pos ⟨List.all_eq_true.mpr hip, List.all_eq_true.mpr hfp, hne⟩]
  rw [zero_sub]

theorem parseRest_nodot (neg : Bool) (ip : List Char)
    (hip : ∀ c ∈ ip, c.isDigit = true) (hne : ip ≠ []) :
    parseRest neg ip
      = some ⟨(if neg then -1 else 1) * (charsToNat ip : ℤ), 0⟩ := by
  unfold parseRest
  dsimp only
  rw [splitAtChar_none (fun c => c == 'E' || c == 'e') ip
    (fun c hc => (isDigit_not_special (hip c hc)).1)]
  dsimp only
  rw [splitAtChar_none (fun c => c == '.') ip
    (fun c hc => (isDigit_not_special (hip c hc)).2)]
  dsimp only [Option.getD_none]
  rw [if_pos ⟨List.all_eq_true.mpr hip, by simp, by simpa using hne⟩]
  simp


theorem parseExpInt_eval (expNeg : Bool) (eds : List Char)
    (heds : ∀ c ∈ eds, c.isDigit = true) (hne : eds ≠ []) :
    parseExpInt ((if expNeg then ['-'] else ['+']) ++ eds)
      = some ((if expNeg then -1 else 1) * (charsToNat eds : ℤ)) := by
  cases expNeg
  · unfold parseExpInt
    rw [show (if false = true then ['-'] else ['+']) ++ eds = '+' :: eds by simp]
    rw [stripSign_pos]
    dsimp only
    rw [if_pos ⟨hne, List.all_eq_true.mpr heds⟩]
  · unfold parseExpInt
    rw [show (if true = true then ['-'] else ['+']) ++ eds = '-' :: eds by simp]
    rw [stripSign_neg]
    dsimp only
    rw [if_pos ⟨hne, List.all_eq_true.mpr heds⟩]

theorem parseRest_dot_exp (neg : Bool) (ip fp : List Char) (es : List Char) (ev : ℤ)
    (hip : ∀ c ∈ ip, c.isDigit = true) (hfp : ∀ c ∈ fp, c.isDigit = true)
    (hne : ip ++ fp ≠ []) (hev : parseExpInt es = some ev) :
    parseRest neg ((ip ++ '.' :: fp) ++ 'E' :: es)
      = some ⟨(if neg then -1 else 1) * (charsToNat (ip ++ fp) : ℤ),
          ev - (fp.length : ℤ)⟩ := by
  unfold parseRest
  dsimp only
  rw [splitAtChar_found (fun c => c == 'E' || c == 'e') (ip ++ '.' :: fp) 'E' es (by
    intro c hc
    rcases List.mem_append.mp hc with h | h
    · exact (isDigit_not_special (hip c h)).1
    · rcases List.mem_cons.mp h with rfl | h
      · decide
      · exact (isDigit_not_special (hfp c h)).1) (by decide)]
  dsimp only
  rw [splitAtChar_found (fun c => c == '.') ip '.' fp
    (fun c hc => (isDigit_not_special (hip c hc)).2) (by decide)]
  dsimp only [Option.getD_some]
  rw [hev]
  dsimp only
  rw [if_pos ⟨List.all_eq_true.mpr hip, List.all_eq_true.mpr hfp, hne⟩]

theorem parseRest_nodot_exp (neg : Bool) (ip : List Char) (es : List Char) (ev : ℤ)
    (hip : ∀ c ∈ ip, c.isDigit = true) (hne : ip ≠ [])
    (hev : parseExpInt es = some ev) :
    parseRest neg (ip ++ 'E' :: es)
      = some ⟨(if neg then -1 else 1) * (charsToNat ip : ℤ), ev⟩ := by
  unfold parseRest
  dsimp only
  rw [splitAtChar_found (fun c => c == 'E' || c == 'e') ip 'E' es
    (fun c hc => (isDigit_not_special (hip c hc)).1) (by decide)]
  dsimp only
  rw [splitAtChar_none (fun c => c == '.') ip
    (fun c hc => (isDigit_not_special (hip c hc)).2)]
  dsimp only [Option.getD_none]
  rw [hev]
  dsimp only
  rw [if_pos ⟨List.all_eq_true.mpr hip, by simp, by simpa using hne⟩]
  simp

theorem toChars_low (d : Dec) (he : d.e ≤ 0)
    (hL6 : -6 < d.e + ((natChars d.c.natAbs).length : ℤ))
    (hL0 : d.e + ((natChars d.c.natAbs).length : ℤ) ≤ 0) :
    d.toChars = (if d.c < 0 then ['-'] else []) ++ '0' :: '.' ::
      (List.replicate (-(d.e + ((natChars d.c.natAbs).length : ℤ))).toNat '0'
        ++ natChars d.c.natAbs) := by
  unfold Dec.toChars
  dsimp only
  rw [if_pos (show d.e ≤ 0 ∧ -6 < d.e + ((natChars d.c.natAbs).length : ℤ)
    from ⟨he, hL6⟩)]
  rw [if_pos (show d.e + ((natChars d.c.natAbs).length : ℤ) ≤ 0 from hL0),
    if_pos (show d.e + ((natChars d.c.natAbs).length : ℤ) ≤ 0 from hL0),
    if_pos rfl]
  simp


theorem toChars_mid (d : Dec) (he : d.e ≤ 0)
    (hL6 : -6 < d.e + ((natChars d.c.natAbs).length : ℤ))
    (h0L : 0 < d.e + ((natChars d.c.natAbs).length : ℤ))
    (hLlen : d.e + ((natChars d.c.natAbs).length : ℤ)
      < ((natChars d.c.natAbs).length : ℤ)) :
    d.toChars = (if d.c < 0 then ['-'] else []) ++
      ((natChars d.c.natAbs).take (d.e + ((natChars d.c.natAbs).length : ℤ)).toNat
      ++ '.' :: (natChars d.c.natAbs).drop
          (d.e + ((natChars d.c.natAbs).length : ℤ)).toNat) := by
  unfold Dec.toChars
  dsimp only
  rw [if_pos (show d.e ≤ 0 ∧ -6 < d.e + ((natChars d.c.natAbs).length : ℤ)
    from ⟨he, hL6⟩)]
  rw [if_neg (show ¬(d.e + ((natChars d.c.natAbs).length : ℤ) ≤ 0) from by omega),
    if_neg (show ¬(((natChars d.c.natAbs).length : ℤ)
      ≤ d.e + ((natChars d.c.natAbs).length : ℤ)) from by omega),
    if_neg (show ¬(d.e + ((natChars d.c.natAbs).length : ℤ) ≤ 0) from by omega),
    if_neg (show ¬(((natChars d.c.natAbs).length : ℤ)
      ≤ d.e + ((natChars d.c.natAbs).length : ℤ)) from by omega),
    if_pos rfl]
  simp

theorem toChars_int (d : Dec) (he : d.e = 0) :
    d.toChars = (if d.c < 0 then ['-'] else []) ++ natChars d.c.natAbs := by
  have hlen : 1 ≤ (natChars d.c.natAbs).length :=
    List.length_pos.mpr (natChars_ne_nil _)
  unfold Dec.toChars
  dsimp only
  rw [if_pos (show d.e ≤ 0 ∧ -6 < d.e + ((natChars d.c.natAbs).length : ℤ)
    from ⟨by omega, by omega⟩)]
  rw [if_neg (show ¬(d.e + ((natChars d.c.natAbs).length : ℤ) ≤ 0) from by omega),
    if_pos (show ((natChars d.c.natAbs).length : ℤ)
      ≤ d.e + ((natChars d.c.natAbs).length : ℤ) from by omega),
    if_neg (show ¬(d.e + ((natChars d.c.natAbs).length : ℤ) ≤ 0) from by omega),
    if_pos (show ((natChars d.c.natAbs).length : ℤ)
      ≤ d.e + ((natChars d.c.natAbs).length : ℤ) from by omega),
    if_pos rfl]
  rw [show (d.e + ((natChars d.c.natAbs).length : ℤ)
    - ((natChars d.c.natAbs).length : ℤ)).toNat = 0 from by omega]
  simp


theorem toChars_sci_one (d : Dec)
    (hsci : ¬(d.e ≤ 0 ∧ -6 < d.e + ((natChars d.c.natAbs).length : ℤ)))
    (hlen1 : (natChars d.c.natAbs).length = 1) :
    d.toChars = (if d.c < 0 then ['-'] else []) ++ (natChars d.c.natAbs ++ 'E' ::
      ((if 0 ≤ d.e + ((natChars d.c.natAbs).length : ℤ) - 1 then ['+'] else ['-'])
        ++ natChars (d.e + ((natChars d.c.natAbs).length : ℤ) - 1).natAbs)) := by
  have hL1 : d.e + ((natChars d.c.natAbs).length : ℤ) ≠ 1 := by
    rw [hlen1]
    intro hx
    exact hsci ⟨by omega, by omega⟩
  unfold Dec.toChars
  dsimp only
  rw [if_neg hsci]
  rw [if_neg (show ¬((1 : ℤ) ≤ 0) from by omega),
    if_pos (show ((natChars d.c.natAbs).length : ℤ) ≤ 1 from by simp [hlen1]),
    if_neg (show ¬((1 : ℤ) ≤ 0) from by omega),
    if_pos (show ((natChars d.c.natAbs).length : ℤ) ≤ 1 from by simp [hlen1]),
    if_neg (show ¬(d.e + ((natChars d.c.natAbs).length : ℤ) = 1) from hL1)]
  rw [show ((1 : ℤ) - ((natChars d.c.natAbs).length : ℤ)).toNat = 0 from by
    rw [hlen1]; omega]
  simp

theorem toChars_sci_many (d : Dec)
    (hsci : ¬(d.e ≤ 0 ∧ -6 < d.e + ((natChars d.c.natAbs).length : ℤ)))
    (hlen2 : 1 < (natChars d.c.natAbs).length) :
    d.toChars = (if d.c < 0 then ['-'] else []) ++
      (((natChars d.c.natAbs).take 1 ++ '.' :: (natChars d.c.natAbs).drop 1)
        ++ 'E' ::
      ((if 0 ≤ d.e + ((natChars d.c.natAbs).length : ℤ) - 1 then ['+'] else ['-'])
        ++ natChars (d.e + ((natChars d.c.natAbs).length : ℤ) - 1).natAbs)) := by
  unfold Dec.toChars
  dsimp only
  rw [if_neg hsci]
  rw [if_neg (show ¬((1 : ℤ) ≤ 0) from by omega),
    if_neg (show ¬(((natChars d.c.natAbs).length : ℤ) ≤ 1) from by omega),
    if_neg (show ¬((1 : ℤ) ≤ 0) from by omega),
    if_neg (show ¬(((natChars d.c.natAbs).length : ℤ) ≤ 1) from by omega),
    if_neg (show ¬(d.e + ((natChars d.c.natAbs).length : ℤ) = 1) from by omega)]
  rw [show ((1 : ℤ)).toNat = 1 from rfl]
  simp

theorem sign_mul_natAbs (c : ℤ) :
    (if decide (c < 0) = true then (-1 : ℤ) else 1) * (c.natAbs : ℤ) = c := by
  rcases lt_or_ge c 0 with h | h
  · rw [if_pos (by simpa using h)]
    omega
  · rw [if_neg (by simpa using h)]
    omega

theorem parseExpInt_render (k : ℤ) :
    parseExpInt ((if 0 ≤ k then ['+'] else ['-']) ++ natChars k.natAbs)
      = some k := by
  rcases le_or_lt 0 k with h | h
  · rw [if_pos h]
    have hx := parseExpInt_eval false (natChars k.natAbs)
      (natChars_all_digit _) (natChars_ne_nil _)
    rw [charsToNat_natChars] at hx
    simp only [Bool.false_eq_true, if_false] at hx
    rw [hx]
    congr 1
    omega
  · rw [if_neg (by omega)]
    have hx := parseExpInt_eval true (natChars k.natAbs)
      (natChars_all_digit _) (natChars_ne_nil _)
    rw [charsToNat_natChars] at hx
    simp only [if_true] at hx
    rw [hx]
    congr 1
    omega

theorem parseDecChars_sign (c : ℤ) (x : Char) (rest : List Char)
    (hx : x.isDigit = true) :
    parseDecChars ((if c < 0 then ['-'] else []) ++ x :: rest)
      = parseRest (decide (c < 0)) (x :: rest) := by
  rcases lt_or_ge c 0 with h | h
  · rw [if_pos h]
    unfold parseDecChars
    rw [List.singleton_append, stripSign_neg]
    rw [decide_eq_true h]
  · rw [if_neg (not_lt.mpr h)]
    unfold parseDecChars
    rw [List.nil_append, stripSign_digit x rest hx]
    rw [decide_eq_false (not_lt.mpr h)]

theorem parseDec_toChars_low (c e : ℤ) (he : e ≤ 0)
    (hL6 : -6 < e + ((natChars c.natAbs).length : ℤ))
    (hL0 : e + ((natChars c.natAbs).length : ℤ) ≤ 0) :
    parseDecChars (Dec.toChars ⟨c, e⟩) = some ⟨c, e⟩ := by
  rw [toChars_low ⟨c, e⟩ he hL6 hL0]
  dsimp only
  rw [parseDecChars_sign c '0' _ (by decide)]
  rw [show ('0' :: '.' ::
      (List.replicate (-(e + ((natChars c.natAbs).length : ℤ))).toNat '0'
        ++ natChars c.natAbs))
    = ['0'] ++ '.' ::
      (List.replicate (-(e + ((natChars c.natAbs).length : ℤ))).toNat '0'
        ++ natChars c.natAbs) from rfl]
  rw [parseRest_dot _ ['0'] _
    (by intro ch hch; simp at hch; subst hch; rfl)
    (by
      intro ch hch
      rcases List.mem_append.mp hch with h | h
      · rw [List.eq_of_mem_replicate h]; rfl
      · exact natChars_all_digit _ ch h)
    (by simp)]
  rw [show (['0'] ++ (List.replicate (-(e + ((natChars c.natAbs).length : ℤ))).toNat '0'
      ++ natChars c.natAbs))
    = List.replicate ((-(e + ((natChars c.natAbs).length : ℤ))).toNat + 1) '0'
      ++ natChars c.natAbs from by simp [List.replicate_succ]]
  rw [charsToNat_replicate_zero_append, charsToNat_natChars]
  simp only [Option.some.injEq, Dec.mk.injEq]
  refine ⟨sign_mul_natAbs c, ?_⟩
  simp only [List.length_append, List.length_replicate]
  push_cast
  omega


theorem parseDec_toChars_mid (c e : ℤ) (he : e ≤ 0)
    (hL6 : -6 < e + ((natChars c.natAbs).length : ℤ))
    (h0L : 0 < e + ((natChars c.natAbs).length : ℤ))
    (hLlen : e + ((natChars c.natAbs).length : ℤ)
      < ((natChars c.natAbs).length : ℤ)) :
    parseDecChars (Dec.toChars ⟨c, e⟩) = some ⟨c, e⟩ := by
  obtain ⟨x, t, hxt⟩ := List.exists_cons_of_ne_nil (natChars_ne_nil c.natAbs)
  have hxdig : x.isDigit = true := natChars_all_digit c.natAbs x (by simp [hxt])
  have htdig : ∀ ch ∈ t, ch.isDigit = true := fun ch hch =>
    natChars_all_digit c.natAbs ch (by simp [hxt, hch])
  have hcnat : charsToNat (x :: t) = c.natAbs := by
    rw [← hxt, charsToNat_natChars]
  have hlent : (natChars c.natAbs).length = t.length + 1 := by
    rw [hxt]
    simp
  obtain ⟨m, hm⟩ : ∃ m, (e + ((natChars c.natAbs).length : ℤ)).toNat = m + 1 :=
    ⟨(e + ((natChars c.natAbs).length : ℤ)).toNat - 1, by omega⟩
  rw [toChars_mid ⟨c, e⟩ he hL6 h0L hLlen]
  dsimp only
  rw [hm, hxt, List.take_succ_cons, List.drop_succ_cons, List.cons_append]
  rw [parseDecChars_sign c x _ hxdig]
  rw [← List.cons_append]
  rw [parseRest_dot _ (x :: t.take m) (t.drop m)
    (by
      intro ch hch
      rcases List.mem_cons.mp hch with rfl | hch
      · exact hxdig
      · exact htdig ch (List.mem_of_mem_take hch))
    (fun ch hch => htdig ch (List.mem_of_mem_drop hch))
    (by simp)]
  rw [show (x :: t.take m) ++ t.drop m = x :: t from by
    rw [List.cons_append, List.take_append_drop]]
  rw [hcnat]
  simp only [Option.some.injEq, Dec.mk.injEq]
  refine ⟨sign_mul_natAbs c, ?_⟩
  have hdlen : (t.drop m).length = t.length - m := List.length_drop m t
  rw [hdlen]
  omega


theorem parseDec_toChars_int (c e : ℤ) (he : e = 0) :
    parseDecChars (Dec.toChars ⟨c, e⟩) = some ⟨c, e⟩ := by
  obtain ⟨x, t, hxt⟩ := List.exists_cons_of_ne_nil (natChars_ne_nil c.natAbs)
  have hxdig : x.isDigit = true := natChars_all_digit c.natAbs x (by simp [hxt])
  have hcnat : charsToNat (x :: t) = c.natAbs := by
    rw [← hxt, charsToNat_natChars]
  rw [toChars_int ⟨c, e⟩ he]
  dsimp only
  rw [hxt, parseDecChars_sign c x t hxdig]
  rw [parseRest_nodot _ (x :: t)
    (by
      intro ch hch
      rw [← hxt] at hch
      exact natChars_all_digit c.natAbs ch hch)
    (List.cons_ne_nil x t)]
  rw [hcnat]
  simp only [Option.some.injEq, Dec.mk.injEq]
  exact ⟨sign_mul_natAbs c, he.symm⟩

theorem parseDec_toChars_sci_one (c e : ℤ)
    (hsci : ¬(e ≤ 0 ∧ -6 < e + ((natChars c.natAbs).length : ℤ)))
    (hlen1 : (natChars c.natAbs).length = 1) :
    parseDecChars (Dec.toChars ⟨c, e⟩) = some ⟨c, e⟩ := by
  obtain ⟨x, t, hxt⟩ := List.exists_cons_of_ne_nil (natChars_ne_nil c.natAbs)
  have ht : t = [] := by
    have hx1 := hlen1
    rw [hxt] at hx1
    simpa using hx1
  subst ht
  have hxdig : x.isDigit = true := natChars_all_digit c.natAbs x (by simp [hxt])
  have hcnat : charsToNat [x] = c.natAbs := by
    rw [← hxt, charsToNat_natChars]
  rw [toChars_sci_one ⟨c, e⟩ hsci hlen1]
  dsimp only
  rw [hxt]
  have hES := parseExpInt_render (e + (([x] : List Char).length : ℤ) - 1)
  set es := (if 0 ≤ e + (([x] : List Char).length : ℤ) - 1 then ['+'] else ['-'])
    ++ natChars (e + (([x] : List Char).length : ℤ) - 1).natAbs with hes
  rw [show ([x] ++ 'E' :: es) = x :: 'E' :: es from rfl]
  rw [parseDecChars_sign c x _ hxdig]
  rw [show (x :: 'E' :: es) = [x] ++ 'E' :: es from rfl]
  rw [parseRest_nodot_exp _ [x] es (e + (([x] : List Char).length : ℤ) - 1)
    (by
      intro ch hch
      rcases List.mem_singleton.mp hch with rfl
      exact hxdig)
    (by simp)
    hES]
  rw [hcnat]
  simp only [Option.some.injEq, Dec.mk.injEq, List.length_singleton]
  refine ⟨sign_mul_natAbs c, ?_⟩
  omega

theorem parseDec_toChars_sci_many (c e : ℤ)
    (hsci : ¬(e ≤ 0 ∧ -6 < e + ((natChars c.natAbs).length : ℤ)))
    (hlen2 : 1 < (natChars c.natAbs).length) :
    parseDecChars (Dec.toChars ⟨c, e⟩) = some ⟨c, e⟩ := by
  obtain ⟨x, t, hxt⟩ := List.exists_cons_of_ne_nil (natChars_ne_nil c.natAbs)
  have hxdig : x.isDigit = true := natChars_all_digit c.natAbs x (by simp [hxt])
  have htdig : ∀ ch ∈ t, ch.isDigit = true := fun ch hch =>
    natChars_all_digit c.natAbs ch (by simp [hxt, hch])
  have hcnat : charsToNat (x :: t) = c.natAbs := by
    rw [← hxt, charsToNat_natChars]
  have hlent : (natChars c.natAbs).length = t.length + 1 := by
    rw [hxt]
    simp
  rw [toChars_sci_many ⟨c, e⟩ hsci hlen2]
  dsimp only
  rw [hxt, show (1 : ℕ) = 0 + 1 from rfl, List.take_succ_cons, List.drop_succ_cons,
    List.take_zero, List.drop_zero]
  have hES := parseExpInt_render (e + (((x :: t) : List Char).length : ℤ) - 1)
  set es := (if 0 ≤ e + (((x :: t) : List Char).length : ℤ) - 1 then ['+'] else ['-'])
    ++ natChars (e + (((x :: t) : List Char).length : ℤ) - 1).natAbs with hes
  rw [show (([x] ++ '.' :: t) ++ 'E' :: es) = x :: ('.' :: t ++ 'E' :: es) from by simp]
  rw [parseDecChars_sign c x _ hxdig]
  rw [show (x :: ('.' :: t ++ 'E' :: es)) = ([x] ++ '.' :: t) ++ 'E' :: es from by simp]
  rw [parseRest_dot_exp _ [x] t es (e + (((x :: t) : List Char).length : ℤ) - 1)
    (by
      intro ch hch
      rcases List.mem_singleton.mp hch with rfl
      exact hxdig)
    htdig
    (by simp)
    hES]
  rw [show ([x] ++ t) = x :: t from rfl, hcnat]
  simp only [Option.some.injEq, Dec.mk.injEq, List.length_cons]
  refine ⟨sign_mul_natAbs c, ?_⟩
  push_cast
  omega

theorem parseDec_toChars (d : Dec) : parseDecChars d.toChars = some d := by
  obtain ⟨c, e⟩ := d
  have hlen1 : 1 ≤ (natChars c.natAbs).length :=
    List.length_pos.mpr (natChars_ne_nil _)
  by_cases hplain : e ≤ 0 ∧ -6 < e + ((natChars c.natAbs).length : ℤ)
  · rcases le_or_lt (e + ((natChars c.natAbs).length : ℤ)) 0 with hL0 | h0L
    · exact parseDec_toChars_low c e hplain.1 hplain.2 hL0
    · rcases lt_or_ge (e + ((natChars c.natAbs).length : ℤ))
        ((natChars c.natAbs).length : ℤ) with hLlen | hlenL
      · exact parseDec_toChars_mid c e hplain.1 hplain.2 h0L hLlen
      · exact parseDec_toChars_int c e (by omega)
  · rcases Nat.lt_or_ge 1 (natChars c.natAbs).length with hlen2 | hle
    · exact parseDec_toChars_sci_many c e hplain hlen2
    · exact parseDec_toChars_sci_one c e hplain (by omega)

/-! ## Theorems: save/load round trip -/

/-- C4. `save_state` followed by `load_state` of the written row
reconstructs the stamped state exactly: the three decimal fields round-trip
bit-for-bit (coefficient and exponent) through `str`/`Decimal`, and both
timestamps round-trip through `isoformat`/`fromisoformat`. -/
theorem claim_C4 (s : GameState) (now : DateTime)
    (h1 : s.last_update.Valid) (h2 : now.Valid) :
    GameDatabase.load_state (some (GameDatabase.save_state s now).2)
      = Except.ok (some (GameDatabase.save_state s now).1) := by
  unfold GameDatabase.save_state GameDatabase.load_state
  dsimp only
  rw [parseDec_toChars, parseDec_toChars, parseDec_toChars,
    parseIso_isoChars _ h1, parseIso_isoChars _ h2]

/-! ## Theorems: remaining claims -/

theorem toQ_micro (k : ℤ) : Dec.toQ ⟨k, -6⟩ = (k : ℚ) / 1000000 := by
  rw [Dec.toQ]
  norm_num
  ring

/-- C9. `save_state` mutates only `last_save` (stamping it with the
current time); `counter`, `click_power`, `auto_increment` and `last_update`
are returned unchanged. -/
theorem claim_C9 (s : GameState) (now : DateTime) :
    (GameDatabase.save_state s now).1.counter = s.counter
    ∧ (GameDatabase.save_state s now).1.click_power = s.click_power
    ∧ (GameDatabase.save_state s now).1.auto_increment = s.auto_increment
    ∧ (GameDatabase.save_state s now).1.last_update = s.last_update
    ∧ (GameDatabase.save_state s now).1.last_save = now :=
  ⟨rfl, rfl, rfl, rfl, rfl⟩

/-- C5. `load_state` returns the absent sentinel (`None`) exactly on a
never-saved store; when a row exists it never returns absent, and whenever
any of the five fields fails to decode it raises a hard load failure
(modelled as `Except.error`), never absent and never a default state. -/
theorem claim_C5 :
    GameDatabase.load_state none = Except.ok none
    ∧ (∀ r : Row, GameDatabase.load_state (some r) ≠ Except.ok none)
    ∧ (∀ r : Row,
        (parseDecChars r.counter.data = none
          ∨ parseDecChars r.click_power.data = none
          ∨ parseDecChars r.auto_increment.data = none
          ∨ parseIsoChars r.last_update.data = none
          ∨ parseIsoChars r.last_save.data = none) →
        GameDatabase.load_state (some r)
          = Except.error "row exists but a field failed to decode") := by
  refine ⟨rfl, ?_, ?_⟩
  · intro r
    unfold GameDatabase.load_state
    rcases h1 : parseDecChars r.counter.data with _ | c <;>
      rcases h2 : parseDecChars r.click_power.data with _ | cp <;>
        rcases h3 : parseDecChars r.auto_increment.data with _ | ai <;>
          rcases h4 : parseIsoChars r.last_update.data with _ | lu <;>
            rcases h5 : parseIsoChars r.last_save.data with _ | ls <;>
              simp_all
  · intro r hfail
    unfold GameDatabase.load_state
    rcases h1 : parseDecChars r.counter.data with _ | c <;>
      rcases h2 : parseDecChars r.click_power.data with _ | cp <;>
        rcases h3 : parseDecChars r.auto_increment.data with _ | ai <;>
          rcases h4 : parseIsoChars r.last_update.data with _ | lu <;>
            rcases h5 : parseIsoChars r.last_save.data with _ | ls <;>
              simp_all

/-- C8. The reset tool deletes the store exactly when the response
lowercases to `"yes"` or `"y"` and the deletion raises nothing; any other
response cancels and leaves the store; with no store it reports absence and
deletes nothing; an error during deletion exits with a non-zero code. -/
theorem claim_C8 :
    (∀ (resp : String) (u : Bool),
        (reset_game true resp u).2.1 = false ↔
          ((strToLower resp = "yes" ∨ strToLower resp = "y") ∧ u = false))
    ∧ (∀ resp : String, ¬(strToLower resp = "yes" ∨ strToLower resp = "y") →
        reset_game true resp false = (.cancelled, true, 0))
    ∧ (∀ (resp : String) (u : Bool),
        reset_game false resp u = (.absent, false, 0))
    ∧ (∀ resp : String, (strToLower resp = "yes" ∨ strToLower resp = "y") →
        reset_game true resp true = (.errorExit, true, 1)
          ∧ (reset_game true resp true).2.2 ≠ 0)
    ∧ (∀ resp : String, (strToLower resp = "yes" ∨ strToLower resp = "y") →
        reset_game true resp false = (.success, false, 0)) := by
  refine ⟨?_, ?_, ?_, ?_, ?_⟩
  · intro resp u
    unfold reset_game
    by_cases hc : strToLower resp = "yes" ∨ strToLower resp = "y"
    · rw [if_pos rfl, if_pos hc]
      cases u <;> simp [hc]
    · rw [if_pos rfl, if_neg hc]
      simp [hc]
  · intro resp hc
    unfold reset_game
    rw [if_pos rfl, if_neg hc]
  · intro resp u
    unfold reset_game
    rw [if_neg (by simp)]
  · intro resp hc
    unfold reset_game
    rw [if_pos rfl, if_pos hc, if_pos rfl]
    exact ⟨rfl, by simp⟩
  · intro resp hc
    unfold reset_game
    rw [if_pos rfl, if_pos hc, if_neg (by simp)]

/-- Witness for C4: a concrete state round-trips bit-for-bit. -/
theorem claim_C4_witness :
    GameDatabase.load_state
        (some (GameDatabase.save_state
          ⟨⟨⟨12345, 0⟩⟩, ⟨⟨50, 0⟩⟩, ⟨⟨10, 0⟩⟩, ⟨2024, 1, 2, 3, 4, 5, 6⟩,
            ⟨2024, 1, 1, 0, 0, 0, 0⟩⟩ ⟨2025, 2, 28, 23, 59, 59, 999999⟩).2)
      = Except.ok (some (GameDatabase.save_state
          ⟨⟨⟨12345, 0⟩⟩, ⟨⟨50, 0⟩⟩, ⟨⟨10, 0⟩⟩, ⟨2024, 1, 2, 3, 4, 5, 6⟩,
            ⟨2024, 1, 1, 0, 0, 0, 0⟩⟩ ⟨2025, 2, 28, 23, 59, 59, 999999⟩).1) :=
  claim_C4 _ _ (by decide) (by decide)

/-- Witness for C5: a row whose counter text is undecodable is a hard load
failure. -/
theorem claim_C5_witness :
    GameDatabase.load_state
        (some ⟨"abc", "1", "1", "2024-01-02T03:04:05", "2024-01-02T03:04:05"⟩)
      = Except.error "row exists but a field failed to decode" :=
  claim_C5.2.2 ⟨"abc", "1", "1", "2024-01-02T03:04:05", "2024-01-02T03:04:05"⟩
    (Or.inl (by decide))

/-- Witness for C8: concrete responses exercise the four outcomes. -/
theorem claim_C8_witness :
    reset_game true "YES" false = (.success, false, 0)
    ∧ reset_game true "no" false = (.cancelled, true, 0)
    ∧ reset_game false "x" true = (.absent, false, 0)
    ∧ reset_game true "Y" true = (.errorExit, true, 1) :=
  ⟨claim_C8.2.2.2.2 "YES" (Or.inl (by decide)),
    claim_C8.2.1 "no" (by decide),
    claim_C8.2.2.1 "x" true,
    (claim_C8.2.2.2.1 "Y" (Or.inr (by decide))).1⟩

/-- C1 (counterexample). The claim says `tick` clamps a backward `now` so
`counter` never decreases; the code computes the raw (negative) elapsed
delta, so ticking a state (counter 100, autoIncrement 1, lastUpdate
2024-01-01T00:00:05) at 2024-01-01T00:00:00 decreases `counter` (to 95;
the -5-second elapsed time is exactly representable, so the conforming
exact instance is the program's behavior here). -/
theorem claim_C1_counterexample :
    (GameState.update ⟨⟨⟨100, 0⟩⟩, ⟨⟨10, 0⟩⟩, ⟨⟨1, 0⟩⟩,
        ⟨2024, 1, 1, 0, 0, 5, 0⟩, ⟨2024, 1, 1, 0, 0, 5, 0⟩⟩ exactTime
      ⟨2024, 1, 1, 0, 0, 0, 0⟩).1.counter.value.toQ
    < Dec.toQ ⟨100, 0⟩ := by
  have hx : (GameState.update ⟨⟨⟨100, 0⟩⟩, ⟨⟨10, 0⟩⟩, ⟨⟨1, 0⟩⟩,
        ⟨2024, 1, 1, 0, 0, 5, 0⟩, ⟨2024, 1, 1, 0, 0, 5, 0⟩⟩ exactTime
      ⟨2024, 1, 1, 0, 0, 0, 0⟩).1.counter.value = ⟨95000000, -6⟩ := by
    decide
  rw [hx, toQ_micro, Dec.toQ_mk]
  norm_num

/-- C1 (amended). `update` does not clamp; under every admissible float64
behavior `counter` is non-decreasing under `update` provided the caller
never passes `now` earlier than `lastUpdate`, `autoIncrement` is
non-negative and the aligned sum stays within the 50-digit context
precision, and non-decreasing under `click` provided `clickPower` is
non-negative and the sum stays within precision. -/
theorem claim_C1_amended :
    (∀ (T : TimeModel) (s : GameState) (now : DateTime),
        s.last_update.toMicroseconds ≤ now.toMicroseconds →
        0 ≤ s.auto_increment.value.c →
        (s.counter.value.addRaw (s.update T now).2.value).c.natAbs < 10 ^ 50 →
        s.counter.value.toQ ≤ (s.update T now).1.counter.value.toQ)
    ∧ (∀ s : GameState, 0 ≤ s.click_power.value.c →
        (s.counter.value.addRaw s.click_power.value).c.natAbs < 10 ^ 50 →
        s.counter.value.toQ ≤ s.click.1.counter.value.toQ) := by
  constructor
  · intro T s now hle hauto hprec
    have hcnt : (s.update T now).1.counter.value
        = s.counter.value.add (s.update T now).2.value := rfl
    have hsign : 0 ≤ (s.update T now).2.value.c := by
      show 0 ≤ (decFix (s.auto_increment.value.mulRaw
        (T.totalSecondsDec
          (now.toMicroseconds - s.last_update.toMicroseconds)))).c
      apply decFix_c_nonneg
      show 0 ≤ s.auto_increment.value.c
        * (T.totalSecondsDec
            (now.toMicroseconds - s.last_update.toMicroseconds)).c
      exact mul_nonneg hauto (T.sign_nonneg _ (by omega))
    have hq : 0 ≤ (s.update T now).2.value.toQ := Dec.toQ_nonneg _ hsign
    rw [hcnt, Dec.toQ_add_small _ _ hprec]
    linarith
  · intro s hcp hprec
    have hcnt : s.click.1.counter.value
        = s.counter.value.add s.click_power.value := rfl
    have hq : 0 ≤ s.click_power.value.toQ := Dec.toQ_nonneg _ hcp
    rw [hcnt, Dec.toQ_add_small _ _ hprec]
    linarith

/-- Witness for C1: monotonicity holds at a concrete forward tick (under the
exact float behavior) and at a concrete click. -/
theorem claim_C1_witness :
    Dec.toQ ⟨100, 0⟩
      ≤ (GameState.update ⟨⟨⟨100, 0⟩⟩, ⟨⟨10, 0⟩⟩, ⟨⟨1, 0⟩⟩,
            ⟨2024, 1, 1, 0, 0, 0, 0⟩, ⟨2024, 1, 1, 0, 0, 0, 0⟩⟩ exactTime
          ⟨2024, 1, 1, 0, 0, 5, 0⟩).1.counter.value.toQ
    ∧ Dec.toQ ⟨100, 0⟩
      ≤ (GameState.click ⟨⟨⟨100, 0⟩⟩, ⟨⟨10, 0⟩⟩, ⟨⟨1, 0⟩⟩,
            ⟨2024, 1, 1, 0, 0, 0, 0⟩,
            ⟨2024, 1, 1, 0, 0, 0, 0⟩⟩).1.counter.value.toQ :=
  ⟨claim_C1_amended.1 exactTime
      ⟨⟨⟨100, 0⟩⟩, ⟨⟨10, 0⟩⟩, ⟨⟨1, 0⟩⟩, ⟨2024, 1, 1, 0, 0, 0, 0⟩,
        ⟨2024, 1, 1, 0, 0, 0, 0⟩⟩ ⟨2024, 1, 1, 0, 0, 5, 0⟩
      (by decide) (by decide) (by decide),
    claim_C1_amended.2
      ⟨⟨⟨100, 0⟩⟩, ⟨⟨10, 0⟩⟩, ⟨⟨1, 0⟩⟩, ⟨2024, 1, 1, 0, 0, 0, 0⟩,
        ⟨2024, 1, 1, 0, 0, 0, 0⟩⟩ (by decide) (by decide)⟩

/-- C3 (counterexample). The claim says `tick` with `now == lastUpdate`
leaves `counter` unchanged; at a 51-digit counter the context rounding of
the `counter.add(increment)` step fires even on a zero increment, so the
zero-elapsed tick rewrites `counter` from `10⁵⁰ + 4` to the rounded
`10⁴⁹ × 10¹` — a strict decrease (the zero elapsed time converts exactly,
so the conforming exact instance is the program's behavior here). -/
theorem claim_C3_counterexample :
    (GameState.update ⟨⟨⟨(10 : ℤ) ^ 50 + 4, 0⟩⟩, ⟨⟨10, 0⟩⟩, ⟨⟨1, 0⟩⟩,
        ⟨2024, 1, 1, 0, 0, 0, 0⟩, ⟨2024, 1, 1, 0, 0, 0, 0⟩⟩ exactTime
      ⟨2024, 1, 1, 0, 0, 0, 0⟩).1.counter.value = ⟨(10 : ℤ) ^ 49, 1⟩
    ∧ (GameState.update ⟨⟨⟨(10 : ℤ) ^ 50 + 4, 0⟩⟩, ⟨⟨10, 0⟩⟩, ⟨⟨1, 0⟩⟩,
        ⟨2024, 1, 1, 0, 0, 0, 0⟩, ⟨2024, 1, 1, 0, 0, 0, 0⟩⟩ exactTime
      ⟨2024, 1, 1, 0, 0, 0, 0⟩).1.counter.value.toQ
      < Dec.toQ ⟨(10 : ℤ) ^ 50 + 4, 0⟩ := by
  have heq : (GameState.update ⟨⟨⟨(10 : ℤ) ^ 50 + 4, 0⟩⟩, ⟨⟨10, 0⟩⟩,
        ⟨⟨1, 0⟩⟩, ⟨2024, 1, 1, 0, 0, 0, 0⟩, ⟨2024, 1, 1, 0, 0, 0, 0⟩⟩
        exactTime ⟨2024, 1, 1, 0, 0, 0, 0⟩).1.counter.value
      = ⟨(10 : ℤ) ^ 49, 1⟩ := by
    have hkey : (GameState.update ⟨⟨⟨(10 : ℤ) ^ 50 + 4, 0⟩⟩, ⟨⟨10, 0⟩⟩,
          ⟨⟨1, 0⟩⟩, ⟨2024, 1, 1, 0, 0, 0, 0⟩, ⟨2024, 1, 1, 0, 0, 0, 0⟩⟩
          exactTime ⟨2024, 1, 1, 0, 0, 0, 0⟩).1.counter.value
        = decFix ⟨((10 : ℤ) ^ 50 + 4) * 10 ^ ((0 : ℤ) - (-6)).toNat, -6⟩ :=
      rfl
    rw [hkey, decFix_51 (-6) (by norm_num)]
  refine ⟨heq, ?_⟩
  rw [heq, Dec.toQ_mk, Dec.toQ_mk]
  norm_num

/-- C3 (amended). Under every admissible float64 behavior, for a forward
tick with elapsed time below 10¹⁵ μs (the float-exact range), an
`autoIncrement` coefficient below 10³³ and an aligned sum within the
50-digit context precision: `update(now)` returns the increment
`autoIncrement × elapsedSeconds` exactly, adds exactly that increment to
`counter`, sets `lastUpdate = now`, touches no other field, and is a
value-level no-op on `counter` when `now = lastUpdate`. -/
theorem claim_C3 (T : TimeModel) (s : GameState) (now : DateTime)
    (_hfwd : s.last_update.toMicroseconds ≤ now.toMicroseconds)
    (hsmall : (now.toMicroseconds - s.last_update.toMicroseconds).natAbs
      < 10 ^ 15)
    (hauto : s.auto_increment.value.c.natAbs < 10 ^ 33)
    (hprec : (s.counter.value.addRaw (s.update T now).2.value).c.natAbs
      < 10 ^ 50) :
    ((s.update T now).2.value.toQ
        = s.auto_increment.value.toQ
          * (((now.toMicroseconds - s.last_update.toMicroseconds : ℤ) : ℚ)
            / 1000000))
    ∧ (s.update T now).1.counter.value.toQ
        = s.counter.value.toQ + (s.update T now).2.value.toQ
    ∧ (s.update T now).1.last_update = now
    ∧ (s.update T now).1.click_power = s.click_power
    ∧ (s.update T now).1.auto_increment = s.auto_increment
    ∧ (s.update T now).1.last_save = s.last_save
    ∧ (now = s.last_update →
        (s.update T now).2.value.toQ = 0
        ∧ (s.update T now).1.counter.value.toQ = s.counter.value.toQ) := by
  obtain ⟨htoQ, hc, he1, he2⟩ :=
    T.exact_small (now.toMicroseconds - s.last_update.toMicroseconds) hsmall
  have hval2 : (s.update T now).2.value
      = s.auto_increment.value.multiply
          (T.totalSecondsDec
            (now.toMicroseconds - s.last_update.toMicroseconds)) := rfl
  have hmc : (s.auto_increment.value.mulRaw
      (T.totalSecondsDec
        (now.toMicroseconds - s.last_update.toMicroseconds))).c.natAbs
      < 10 ^ 50 := by
    show (s.auto_increment.value.c
      * (T.totalSecondsDec
          (now.toMicroseconds - s.last_update.toMicroseconds)).c).natAbs
      < 10 ^ 50
    rw [Int.natAbs_mul]
    calc s.auto_increment.value.c.natAbs
        * (T.totalSecondsDec
            (now.toMicroseconds - s.last_update.toMicroseconds)).c.natAbs
        ≤ (10 ^ 33 - 1) * (10 ^ 17 - 1) :=
          Nat.mul_le_mul (by omega) (by omega)
      _ < 10 ^ 50 := by norm_num
  have h1 : (s.update T now).2.value.toQ
      = s.auto_increment.value.toQ
        * (((now.toMicroseconds - s.last_update.toMicroseconds : ℤ) : ℚ)
          / 1000000) := by
    rw [hval2, Dec.toQ_multiply_small _ _ hmc, htoQ]
  have hcnt : (s.update T now).1.counter.value
      = s.counter.value.add (s.update T now).2.value := rfl
  have h2 : (s.update T now).1.counter.value.toQ
      = s.counter.value.toQ + (s.update T now).2.value.toQ := by
    rw [hcnt, Dec.toQ_add_small _ _ hprec]
  refine ⟨h1, h2, rfl, rfl, rfl, rfl, ?_⟩
  intro hnow
  have h1' : (s.update T now).2.value.toQ = 0 := by
    rw [h1, hnow, sub_self]
    norm_num
  exact ⟨h1', by rw [h2, h1', add_zero]⟩

/-- Witness for C3: the concrete 5-second elapse with autoIncrement 2
returns 10 and raises counter from 100 to 110, under the exact float
behavior. -/
theorem claim_C3_witness :
    (GameState.update ⟨⟨⟨100, 0⟩⟩, ⟨⟨10, 0⟩⟩, ⟨⟨2, 0⟩⟩,
        ⟨2024, 1, 1, 0, 0, 0, 0⟩, ⟨2024, 1, 1, 0, 0, 0, 0⟩⟩ exactTime
      ⟨2024, 1, 1, 0, 0, 5, 0⟩).2.value.toQ = 10
    ∧ (GameState.update ⟨⟨⟨100, 0⟩⟩, ⟨⟨10, 0⟩⟩, ⟨⟨2, 0⟩⟩,
        ⟨2024, 1, 1, 0, 0, 0, 0⟩, ⟨2024, 1, 1, 0, 0, 0, 0⟩⟩ exactTime
      ⟨2024, 1, 1, 0, 0, 5, 0⟩).1.counter.value.toQ = 100 + 10 := by
  have h := claim_C3 exactTime
    ⟨⟨⟨100, 0⟩⟩, ⟨⟨10, 0⟩⟩, ⟨⟨2, 0⟩⟩, ⟨2024, 1, 1, 0, 0, 0, 0⟩,
      ⟨2024, 1, 1, 0, 0, 0, 0⟩⟩ ⟨2024, 1, 1, 0, 0, 5, 0⟩
    (by decide) (by decide) (by decide) (by decide)
  have hd : (DateTime.toMicroseconds ⟨2024, 1, 1, 0, 0, 5, 0⟩
      - DateTime.toMicroseconds ⟨2024, 1, 1, 0, 0, 0, 0⟩) = 5000000 := by
    decide
  have hv : (GameState.update ⟨⟨⟨100, 0⟩⟩, ⟨⟨10, 0⟩⟩, ⟨⟨2, 0⟩⟩,
      ⟨2024, 1, 1, 0, 0, 0, 0⟩, ⟨2024, 1, 1, 0, 0, 0, 0⟩⟩ exactTime
      ⟨2024, 1, 1, 0, 0, 5, 0⟩).2.value.toQ = 10 := by
    rw [h.1, hd]
    norm_num [Dec.toQ_mk]
  refine ⟨hv, ?_⟩
  rw [h.2.1, hv]
  norm_num [Dec.toQ_mk]

/-- C6 (counterexample). The claim says `calculate_offline_earnings`
returns exactly `autoIncrement × secondsOffline`; with a 51-digit
`autoIncrement` coefficient `10⁵⁰ + 4` (loadable from the store, whose
decimal text is unbounded) and 1 second offline, the context rounding of
`multiply` returns `10⁵⁰` instead of the exact `10⁵⁰ + 4`. -/
theorem claim_C6_counterexample :
    (GameState.calculate_offline_earnings
        ⟨⟨⟨100, 0⟩⟩, ⟨⟨10, 0⟩⟩, ⟨⟨(10 : ℤ) ^ 50 + 4, 0⟩⟩,
          ⟨2024, 1, 1, 0, 0, 0, 0⟩, ⟨2024, 1, 1, 0, 0, 0, 0⟩⟩
        ⟨1, 0⟩).2.value.toQ
      ≠ Dec.toQ ⟨(10 : ℤ) ^ 50 + 4, 0⟩ * Dec.toQ ⟨1, 0⟩ := by
  have hkey : (GameState.calculate_offline_earnings
      ⟨⟨⟨100, 0⟩⟩, ⟨⟨10, 0⟩⟩, ⟨⟨(10 : ℤ) ^ 50 + 4, 0⟩⟩,
        ⟨2024, 1, 1, 0, 0, 0, 0⟩, ⟨2024, 1, 1, 0, 0, 0, 0⟩⟩
      ⟨1, 0⟩).2.value
      = decFix ⟨((10 : ℤ) ^ 50 + 4) * 10 ^ ((0 : ℤ) - 0).toNat, 0⟩ := rfl
  rw [hkey, decFix_51 0 le_rfl, Dec.toQ_mk, Dec.toQ_mk, Dec.toQ_mk]
  norm_num

/-- C6 (amended). `calculate_offline_earnings` is pure — it leaves every
field of the state unchanged — and returns `autoIncrement × secondsOffline`,
exactly whenever the product coefficient stays within the 50-digit context
precision; with `autoIncrement = 5` and 60 seconds offline it returns
300. -/
theorem claim_C6 (s : GameState) (sec : Dec) :
    (s.calculate_offline_earnings sec).1 = s
    ∧ ((s.auto_increment.value.mulRaw sec).c.natAbs < 10 ^ 50 →
        (s.calculate_offline_earnings sec).2.value.toQ
          = s.auto_increment.value.toQ * sec.toQ)
    ∧ (GameState.calculate_offline_earnings ⟨⟨⟨1000, 0⟩⟩, ⟨⟨10, 0⟩⟩,
          ⟨⟨5, 0⟩⟩, ⟨2024, 1, 1, 0, 0, 0, 0⟩, ⟨2024, 1, 1, 0, 0, 0, 0⟩⟩
        ⟨60, 0⟩).2.value.toQ = 300 := by
  refine ⟨rfl, ?_, ?_⟩
  · intro hsmall
    exact Dec.toQ_multiply_small _ _ hsmall
  · have hx : (GameState.calculate_offline_earnings ⟨⟨⟨1000, 0⟩⟩, ⟨⟨10, 0⟩⟩,
        ⟨⟨5, 0⟩⟩, ⟨2024, 1, 1, 0, 0, 0, 0⟩, ⟨2024, 1, 1, 0, 0, 0, 0⟩⟩
        ⟨60, 0⟩).2.value = ⟨300, 0⟩ := by decide
    rw [hx, Dec.toQ_zeroExp]
    norm_num

/-- Witness for C6: a concrete in-precision offline computation is exact
and mutates nothing. -/
theorem claim_C6_witness :
    (GameState.calculate_offline_earnings ⟨⟨⟨1000, 0⟩⟩, ⟨⟨10, 0⟩⟩, ⟨⟨5, 0⟩⟩,
        ⟨2024, 1, 1, 0, 0, 0, 0⟩, ⟨2024, 1, 1, 0, 0, 0, 0⟩⟩ ⟨60, 0⟩).1
      = ⟨⟨⟨1000, 0⟩⟩, ⟨⟨10, 0⟩⟩, ⟨⟨5, 0⟩⟩, ⟨2024, 1, 1, 0, 0, 0, 0⟩,
        ⟨2024, 1, 1, 0, 0, 0, 0⟩⟩
    ∧ (GameState.calculate_offline_earnings ⟨⟨⟨1000, 0⟩⟩, ⟨⟨10, 0⟩⟩,
        ⟨⟨5, 0⟩⟩, ⟨2024, 1, 1, 0, 0, 0, 0⟩, ⟨2024, 1, 1, 0, 0, 0, 0⟩⟩
        ⟨60, 0⟩).2.value.toQ
      = Dec.toQ ⟨5, 0⟩ * Dec.toQ ⟨60, 0⟩ :=
  ⟨(claim_C6 ⟨⟨⟨1000, 0⟩⟩, ⟨⟨10, 0⟩⟩, ⟨⟨5, 0⟩⟩, ⟨2024, 1, 1, 0, 0, 0, 0⟩,
      ⟨2024, 1, 1, 0, 0, 0, 0⟩⟩ ⟨60, 0⟩).1,
    (claim_C6 ⟨⟨⟨1000, 0⟩⟩, ⟨⟨10, 0⟩⟩, ⟨⟨5, 0⟩⟩, ⟨2024, 1, 1, 0, 0, 0, 0⟩,
      ⟨2024, 1, 1, 0, 0, 0, 0⟩⟩ ⟨60, 0⟩).2.1 (by decide)⟩

/-- C2. Method `format` is total and caps the tier index: for every value
and every admissible float64 behavior the final magnitude is at most 11
(the index of the last suffix `"Dc"`), and any value of at least `1000¹²`
(which would need a higher tier) still renders, with the `"Dc"` suffix —
including the float-overflow rendering `"inf"`. -/
theorem claim_C2 (F : FloatModel) (g : GameNumber) :
    (fmtLoop F (F.conv g.value) 0).2 ≤ 11
    ∧ ((1000 : ℚ) ^ 12 ≤ g.value.toQ →
        ∃ p : String, GameNumber.format F g = p ++ "Dc") := by
  constructor
  · exact fmtLoopGo_mag_le F _ _ _
  · intro hbig
    have hge : ¬ g.value.toQ < 1000 := by
      push_neg
      calc (1000 : ℚ) ≤ 1000 ^ 12 := by norm_num
        _ ≤ g.value.toQ := hbig
    rw [format_else F g hge]
    refine ⟨String.mk (fixedTwoOpt (fmtLoop F (F.conv g.value) 0).1), ?_⟩
    have htier : (fmtLoop F (F.conv g.value) 0).2 = 11 := by
      cases hconv : F.conv g.value with
      | none =>
        show (fmtLoopGo F (11 - 0) none 0).2 = 11
        rw [fmtLoopGo_none]
      | some q =>
        have h1q : (1 : ℚ) ≤ g.value.toQ :=
          le_trans (by norm_num) hbig
        have hlow := F.conv_lower g.value q hconv h1q
        have hinv : (1 - epsF) ^ (12 - 11) * 1000 ^ (11 + 1) ≤ q := by
          have hm : (1 - epsF) * 1000 ^ 12 ≤ (1 - epsF) * g.value.toQ :=
            mul_le_mul_of_nonneg_left hbig (by norm_num [epsF])
          calc (1 - epsF) ^ (12 - 11) * 1000 ^ (11 + 1)
              = (1 - epsF) * 1000 ^ 12 := by norm_num
            _ ≤ (1 - epsF) * g.value.toQ := hm
            _ ≤ q := hlow
        show (fmtLoopGo F (11 - 0) (some q) 0).2 = 11
        exact fmtLoopGo_full F 11 q 0 (by norm_num) hinv
    rw [htier, show suffixes.getD 11 "" = "Dc" from rfl]

/-- Witness for C2: the tier of `10⁴⁰` is capped and its rendering carries
the `"Dc"` suffix under the exact float behavior. -/
theorem claim_C2_witness :
    (fmtLoop exactFloat (exactFloat.conv ⟨1, 40⟩) 0).2 ≤ 11
    ∧ ∃ p : String, GameNumber.format exactFloat ⟨⟨1, 40⟩⟩ = p ++ "Dc" :=
  ⟨(claim_C2 exactFloat ⟨⟨1, 40⟩⟩).1,
    (claim_C2 exactFloat ⟨⟨1, 40⟩⟩).2 (by
      show (1000 : ℚ) ^ 12 ≤ Dec.toQ ⟨1, 40⟩
      rw [Dec.toQ_mk, show ((40 : ℤ)) = ((40 : ℕ) : ℤ) from rfl,
        zpow_natCast]
      norm_num)⟩

/-- C7. Method `format` produces the spec's boundary renderings under every
admissible float64 behavior — 999 → "999", 1000 → "1.00K",
1000000 → "1.00M", 1234567890 → "1.23B", 1500000 → "1.50M" (tier 2) — and
every non-capped suffixed rendering is a digit run, a decimal point,
exactly two digit characters, then the tier suffix. -/
theorem claim_C7 (F : FloatModel) :
    GameNumber.format F ⟨⟨999, 0⟩⟩ = "999"
    ∧ GameNumber.format F ⟨⟨1000, 0⟩⟩ = "1.00K"
    ∧ GameNumber.format F ⟨⟨1000000, 0⟩⟩ = "1.00M"
    ∧ GameNumber.format F ⟨⟨1234567890, 0⟩⟩ = "1.23B"
    ∧ GameNumber.format F ⟨⟨1500000, 0⟩⟩ = "1.50M"
    ∧ (fmtLoop F (F.conv ⟨1500000, 0⟩) 0).2 = 2
    ∧ (∀ g : GameNumber, ¬ g.value.toQ < 1000 →
        (fmtLoop F (F.conv g.value) 0).2 < 11 →
        ∃ (a : List Char) (b1 b2 : Char),
          GameNumber.format F g
            = String.mk (a ++ '.' :: b1 :: b2 :: [])
              ++ suffixes.getD (fmtLoop F (F.conv g.value) 0).2 ""
          ∧ a ≠ [] ∧ (∀ ch ∈ a, ch.isDigit = true)
          ∧ b1.isDigit = true ∧ b2.isDigit = true) := by
  have habs : ∀ x y : ℚ, x ≤ y → x ≤ |y| :=
    fun x y h => le_trans h (le_abs_self y)
  -- exact divisions used by the concrete cases
  have hd1000 : F.div1000 1000 = 1 := by
    have hrep : FloatRep ((1000 : ℚ) / 1000) :=
      ⟨1, 0, by norm_num, by norm_num, by norm_num, by norm_num⟩
    rw [F.div_exact 1000 hrep]
    norm_num
  have hdM : F.div1000 1000000 = 1000 := by
    have hrep : FloatRep ((1000000 : ℚ) / 1000) :=
      ⟨1000, 0, by norm_num, by norm_num, by norm_num, by norm_num⟩
    rw [F.div_exact 1000000 hrep]
    norm_num
  have hd15 : F.div1000 1500000 = 1500 := by
    have hrep : FloatRep ((1500000 : ℚ) / 1000) :=
      ⟨1500, 0, by norm_num, by norm_num, by norm_num, by norm_num⟩
    rw [F.div_exact 1500000 hrep]
    norm_num
  have hd32 : F.div1000 1500 = 3 / 2 := by
    have hrep : FloatRep ((1500 : ℚ) / 1000) :=
      ⟨3, -1, by
        rw [zpow_neg, zpow_one]
        norm_num, by norm_num, by norm_num, by norm_num⟩
    rw [F.div_exact 1500 hrep]
    norm_num
  -- loop runs for the four suffixed concrete values
  have hloopK : fmtLoop F (some (1000 : ℚ)) 0 = (some 1, 1) := by
    rw [fmtLoop, show (11 - 0 : ℕ) = 10 + 1 from rfl, fmtLoopGo_succ_some,
      if_pos (habs _ _ (by norm_num)), hd1000,
      show (10 : ℕ) = 9 + 1 from rfl, fmtLoopGo_succ_some,
      if_neg (by rw [abs_of_nonneg (by norm_num : (0 : ℚ) ≤ 1)]; norm_num)]
  have hloopM : fmtLoop F (some (1000000 : ℚ)) 0 = (some 1, 2) := by
    rw [fmtLoop, show (11 - 0 : ℕ) = 10 + 1 from rfl, fmtLoopGo_succ_some,
      if_pos (habs _ _ (by norm_num)), hdM,
      show (10 : ℕ) = 9 + 1 from rfl, fmtLoopGo_succ_some,
      if_pos (habs _ _ (by norm_num)), hd1000,
      show (9 : ℕ) = 8 + 1 from rfl, fmtLoopGo_succ_some,
      if_neg (by rw [abs_of_nonneg (by norm_num : (0 : ℚ) ≤ 1)]; norm_num)]
  have hloop15 : fmtLoop F (some (1500000 : ℚ)) 0 = (some (3 / 2), 2) := by
    rw [fmtLoop, show (11 - 0 : ℕ) = 10 + 1 from rfl, fmtLoopGo_succ_some,
      if_pos (habs _ _ (by norm_num)), hd15,
      show (10 : ℕ) = 9 + 1 from rfl, fmtLoopGo_succ_some,
      if_pos (habs _ _ (by norm_num)), hd32,
      show (9 : ℕ) = 8 + 1 from rfl, fmtLoopGo_succ_some,
      if_neg (by rw [abs_of_nonneg (by norm_num : (0 : ℚ) ≤ 3 / 2)]; norm_num)]
  -- interval arithmetic for 1234567890
  have hB1 := div_bounds F 1234567890 1234567890 1234567890
    (by norm_num) le_rfl le_rfl
  have h1l : (1234567 : ℚ) ≤ F.div1000 1234567890 :=
    le_trans (by norm_num [epsF]) hB1.1
  have h1u : F.div1000 1234567890 ≤ 1234568 :=
    le_trans hB1.2 (by norm_num [epsF])
  have hB2 := div_bounds F (F.div1000 1234567890) 1234567 1234568
    (by norm_num) h1l h1u
  have h2l : (12345 / 10 : ℚ) ≤ F.div1000 (F.div1000 1234567890) :=
    le_trans (by norm_num [epsF]) hB2.1
  have h2u : F.div1000 (F.div1000 1234567890) ≤ 12347 / 10 :=
    le_trans hB2.2 (by norm_num [epsF])
  have hB3 := div_bounds F (F.div1000 (F.div1000 1234567890))
    (12345 / 10) (12347 / 10) (by norm_num) h2l h2u
  have h3l : (12344 / 10000 : ℚ)
      ≤ F.div1000 (F.div1000 (F.div1000 1234567890)) :=
    le_trans (by norm_num [epsF]) hB3.1
  have h3u : F.div1000 (F.div1000 (F.div1000 1234567890))
      ≤ 12348 / 10000 :=
    le_trans hB3.2 (by norm_num [epsF])
  have hloopB : fmtLoop F (some (1234567890 : ℚ)) 0
      = (some (F.div1000 (F.div1000 (F.div1000 1234567890))), 3) := by
    rw [fmtLoop, show (11 - 0 : ℕ) = 10 + 1 from rfl, fmtLoopGo_succ_some,
      if_pos (habs _ _ (by norm_num)),
      show (10 : ℕ) = 9 + 1 from rfl, fmtLoopGo_succ_some,
      if_pos (habs _ _ (by linarith)),
      show (9 : ℕ) = 8 + 1 from rfl, fmtLoopGo_succ_some,
      if_pos (habs _ _ (by linarith)),
      show (8 : ℕ) = 7 + 1 from rfl, fmtLoopGo_succ_some,
      if_neg (by rw [abs_of_nonneg (by linarith)]; linarith)]
  refine ⟨?_, ?_, ?_, ?_, ?_, ?_, ?_⟩
  · have ht : Dec.toQ ⟨999, 0⟩ = 999 := by
      rw [Dec.toQ_mk]
      norm_num
    rw [GameNumber.format, if_pos (by rw [ht]; norm_num), ht,
      show (999 : ℚ) = ((999 : ℤ) : ℚ) from by norm_num,
      roundHalfEven_intCast]
    decide
  · have ht : Dec.toQ ⟨1000, 0⟩ = 1000 := by
      rw [Dec.toQ_mk]
      norm_num
    rw [GameNumber.format, if_neg (by rw [ht]; norm_num),
      conv_int F 1000 (by norm_num),
      show ((1000 : ℤ) : ℚ) = 1000 from by norm_num, hloopK]
    dsimp only [fixedTwoOpt]
    rw [fixedTwo_eval _ 100 (by
      rw [show (1 : ℚ) * 100 = ((100 : ℤ) : ℚ) from by norm_num]
      exact roundHalfEven_intCast _)]
    decide
  · have ht : Dec.toQ ⟨1000000, 0⟩ = 1000000 := by
      rw [Dec.toQ_mk]
      norm_num
    rw [GameNumber.format, if_neg (by rw [ht]; norm_num),
      conv_int F 1000000 (by norm_num),
      show ((1000000 : ℤ) : ℚ) = 1000000 from by norm_num, hloopM]
    dsimp only [fixedTwoOpt]
    rw [fixedTwo_eval _ 100 (by
      rw [show (1 : ℚ) * 100 = ((100 : ℤ) : ℚ) from by norm_num]
      exact roundHalfEven_intCast _)]
    decide
  · have ht : Dec.toQ ⟨1234567890, 0⟩ = 1234567890 := by
      rw [Dec.toQ_mk]
      norm_num
    rw [GameNumber.format, if_neg (by rw [ht]; norm_num),
      conv_int F 1234567890 (by norm_num),
      show ((1234567890 : ℤ) : ℚ) = 1234567890 from by norm_num, hloopB]
    dsimp only [fixedTwoOpt]
    rw [fixedTwo_eval _ 123 (roundHalfEven_of_near _ 123
      (by push_cast; linarith) (by push_cast; linarith))]
    decide
  · have ht : Dec.toQ ⟨1500000, 0⟩ = 1500000 := by
      rw [Dec.toQ_mk]
      norm_num
    rw [GameNumber.format, if_neg (by rw [ht]; norm_num),
      conv_int F 1500000 (by norm_num),
      show ((1500000 : ℤ) : ℚ) = 1500000 from by norm_num, hloop15]
    dsimp only [fixedTwoOpt]
    rw [fixedTwo_eval _ 150 (by
      rw [show (3 / 2 : ℚ) * 100 = ((150 : ℤ) : ℚ) from by norm_num]
      exact roundHalfEven_intCast _)]
    decide
  · show (fmtLoop F (F.conv ⟨1500000, 0⟩) 0).2 = 2
    rw [conv_int F 1500000 (by norm_num),
      show ((1500000 : ℤ) : ℚ) = 1500000 from by norm_num, hloop15]
  · intro g hge hcap
    obtain ⟨q, hq⟩ := fmtLoopGo_lt_some F (11 - 0) (F.conv g.value) 0 hcap
    have hq' : (fmtLoop F (F.conv g.value) 0).1 = some q := hq
    have hklt : (roundHalfEven (q * 100)).toNat % 100 < 100 :=
      Nat.mod_lt _ (by norm_num)
    obtain ⟨b1, b2, hb, hbd1, hbd2⟩ :=
      padChars_two ((roundHalfEven (q * 100)).toNat % 100) hklt
    refine ⟨natChars ((roundHalfEven (q * 100)).toNat / 100), b1, b2, ?_,
      natChars_ne_nil _, natChars_all_digit _, hbd1, hbd2⟩
    rw [format_else F g hge, hq']
    have hft : fixedTwoOpt (some q)
        = natChars ((roundHalfEven (q * 100)).toNat / 100)
          ++ '.' :: padChars 2 ((roundHalfEven (q * 100)).toNat % 100) := rfl
    rw [hft, hb]

/-- Witness for C7: the non-capped rendering of 1 500 000 under the exact
float behavior has a digit run, a point and exactly two decimals before its
suffix. -/
theorem claim_C7_witness :
    ∃ (a : List Char) (b1 b2 : Char),
      GameNumber.format exactFloat ⟨⟨1500000, 0⟩⟩
        = String.mk (a ++ '.' :: b1 :: b2 :: [])
          ++ suffixes.getD
              (fmtLoop exactFloat (exactFloat.conv ⟨1500000, 0⟩) 0).2 ""
      ∧ a ≠ [] ∧ (∀ ch ∈ a, ch.isDigit = true)
      ∧ b1.isDigit = true ∧ b2.isDigit = true := by
  have h := claim_C7 exactFloat
  exact h.2.2.2.2.2.2 ⟨⟨1500000, 0⟩⟩
    (by
      show ¬ Dec.toQ ⟨1500000, 0⟩ < 1000
      rw [Dec.toQ_mk]
      norm_num)
    (by rw [h.2.2.2.2.2.1]; norm_num)

/-- C10. The unsuffixed branch of `format` rounds half-to-even rather than
truncating, under every float64 behavior (this branch is float-free):
999.6 (< 1000) renders as `"1000"`, the tie 999.5 rounds up to the even
`"1000"`, and the tie 998.5 rounds down to the even `"998"`. -/
theorem claim_C10 (F : FloatModel) :
    Dec.toQ ⟨9996, -1⟩ < 1000
    ∧ GameNumber.format F ⟨⟨9996, -1⟩⟩ = "1000"
    ∧ GameNumber.format F ⟨⟨9995, -1⟩⟩ = "1000"
    ∧ GameNumber.format F ⟨⟨9985, -1⟩⟩ = "998" := by
  have ht1 : Dec.toQ ⟨9996, -1⟩ = 4998 / 5 := by norm_num [Dec.toQ]
  have ht2 : Dec.toQ ⟨9995, -1⟩ = 1999 / 2 := by norm_num [Dec.toQ]
  have ht3 : Dec.toQ ⟨9985, -1⟩ = 1997 / 2 := by norm_num [Dec.toQ]
  refine ⟨by rw [ht1]; norm_num, ?_, ?_, ?_⟩
  · rw [GameNumber.format, if_pos (by rw [ht1]; norm_num), ht1,
      roundHalfEven_up _ 999 (by norm_num) (by norm_num)]
    decide
  · rw [GameNumber.format, if_pos (by rw [ht2]; norm_num), ht2,
      roundHalfEven_tie _ 999 (by norm_num), if_neg (by norm_num)]
    decide
  · rw [GameNumber.format, if_pos (by rw [ht3]; norm_num), ht3,
      roundHalfEven_tie _ 998 (by norm_num), if_pos (by norm_num)]
    decide

end IdleGame
